import Mathlib

/-! Verification of the K-Medoids (PAM) clustering implementation in
`pyclustering/cluster/kmedoids.py`.

The embedding translates the pure-Python implementation path of the
`kmedoids` class into Lean.  Python floats are idealised as rationals
(`ℚ`); where a claim is about the behaviour of float comparisons against
the `float('Inf')` sentinel (including NaN-like values), the comparison
is abstracted into an explicit boolean parameter so that the theorem
quantifies over every possible comparison behaviour.

Components of the repository that are referenced by `kmedoids.py` but
whose source is not part of this tree (`pyclustering.utils.median`,
`pyclustering.utils.metric.distance_metric`, `ccore_library.workable`)
are modelled from the specification; their doc comments say so.
-/

/-- A data point: an ordered numeric vector, idealising Python floats as `ℚ`. -/
def Point : Type := List ℚ

instance : DecidableEq Point := by
  unfold Point
  infer_instance

/-- Total list lookup used to model Python `lst[i]` at places where the
index is known to be in range in every reachable state (out of range it
returns a default, which is never exercised under the theorems' hypotheses). -/
def pget (l : List Point) (i : Nat) : Point := l.getD i []

/-- Modelled from the spec: the squared Euclidean distance family of
`pyclustering.utils.metric` (sum of squared coordinate differences), defined
for points of equal dimensionality. -/
def euclidSqDist (a b : Point) : ℚ :=
  (List.zipWith (fun x y => (x - y) * (x - y)) a b).sum

/-- Modelled from the spec: the metric family tags of
`pyclustering.utils.metric.type_metric`. -/
inductive type_metric where
  | EUCLIDEAN
  | EUCLIDEAN_SQUARE
  | MANHATTAN
  | CHEBYSHEV
  | MINKOWSKI
  | USER_DEFINED
deriving DecidableEq

/-- Modelled from the spec: a `distance_metric` configuration object pairing a
family tag with the scalar distance function it computes. -/
structure distance_metric where
  mtype : type_metric
  dist : Point → Point → ℚ

/-- The `distance_metric(type_metric.EUCLIDEAN_SQUARE)` instance used as the
default metric by the `kmedoids` constructor. -/
def euclideanSquareMetric : distance_metric :=
  { mtype := type_metric.EUCLIDEAN_SQUARE, dist := euclidSqDist }

/-- The kinds of Python exception relevant to constructing and running the
algorithm: a generic indexing error, a generic value error (e.g. `max()` on an
empty sequence), and the `InvalidInputError` the specification speaks about. -/
inductive PyErr where
  | indexError
  | invalidInputError
  | valueError
deriving DecidableEq

/-- Python list indexing `data[i]` for a possibly negative `Int` index:
valid when `-len ≤ i < len` (negative indices count from the end),
otherwise an `IndexError` is raised. -/
def pyIndex (data : List Point) (i : Int) : Except PyErr Point :=
  let n : Int := data.length
  if 0 ≤ i ∧ i < n then Except.ok (data.getD i.toNat [])
  else if -n ≤ i ∧ i < 0 then Except.ok (data.getD (n + i).toNat [])
  else Except.error PyErr.indexError

/-- The list comprehension `[ data[medoid_index] for medoid_index in initial_index_medoids ]`
from the constructor: looks every index up left to right, propagating the first
indexing error. -/
def pyGetPoints (data : List Point) : List Int → Except PyErr (List Point)
  | [] => Except.ok []
  | i :: rest =>
    match pyIndex data i with
    | Except.error e => Except.error e
    | Except.ok p =>
      match pyGetPoints data rest with
      | Except.error e => Except.error e
      | Except.ok ps => Except.ok (p :: ps)

/-- The state stored by `kmedoids.__init__`. -/
structure kmedoidsState where
  pointer_data : List Point
  clusters : List (List Nat)
  medoids : List Point
  medoid_indexes : List Int
  tolerance : ℚ
  metric : distance_metric
  ccore : Bool

/-- The constructor `kmedoids.__init__`.  `metricArg` models the optional
`metric` keyword argument (`none` covers both omitting it and passing `None`,
which the constructor maps to the squared-Euclidean default in two steps);
`workable` models the result of `ccore_library.workable()`, which the
specification says to treat as an explicitly passed configuration value. -/
def kmedoids_init (data : List Point) (initial_index_medoids : List Int)
    (tolerance : ℚ) (ccore : Bool) (metricArg : Option distance_metric)
    (workable : Bool) : Except PyErr kmedoidsState :=
  match pyGetPoints data initial_index_medoids with
  | Except.error e => Except.error e
  | Except.ok medoids =>
    let metric := metricArg.getD euclideanSquareMetric
    let ccore1 := ccore && decide (metric.mtype ≠ type_metric.USER_DEFINED)
    let ccore2 := if ccore1 then workable else ccore1
    Except.ok
      { pointer_data := data
        clusters := []
        medoids := medoids
        medoid_indexes := initial_index_medoids
        tolerance := tolerance
        metric := metric
        ccore := ccore2 }

/-- Which implementation `process()` dispatches to. -/
inductive ProcessPath where
  | ccorePath
  | pythonPath
deriving DecidableEq

/-- The dispatch `if (self.__ccore is True): ... else: ...` at the top of
`process()`. -/
def processPath (st : kmedoidsState) : ProcessPath :=
  if st.ccore = true then ProcessPath.ccorePath else ProcessPath.pythonPath

/-- Boolean success test for a constructor outcome. -/
def exceptIsOk : Except PyErr kmedoidsState → Bool
  | Except.ok _ => true
  | Except.error _ => false

/-- The inner loop of `__update_clusters` over `range(len(self.__medoids))`:
state is `(index_optim, dist_optim)` starting at `(-1, Inf)`; `none` plays the
role of the `float('Inf')` sentinel.  The update condition is
`(dist < dist_optim) or (index is 0)`.  The comparisons are parameters:
`lt d v` models `dist < dist_optim` and `ltInf d` models `dist < float('Inf')`,
so that the definition also covers degenerate float values (NaN, infinity)
for which every comparison is `False`. -/
def nearestLoop {D : Type} (lt : D → D → Bool) (ltInf : D → Bool) :
    List D → Nat → Int × Option D → Int × Option D
  | [], _, acc => acc
  | d :: rest, i, acc =>
    let cond :=
      (match acc.2 with
       | none => ltInf d
       | some v => lt d v) || (i == 0)
    nearestLoop lt ltInf rest (i + 1) (if cond then ((i : Int), some d) else acc)

/-- The `index_optim` computed by the inner loop of `__update_clusters` for one
point, given its list of distances to the medoids. -/
def nearestIndexC {D : Type} (lt : D → D → Bool) (ltInf : D → Bool)
    (dists : List D) : Int :=
  (nearestLoop lt ltInf dists 0 (-1, none)).1

/-- `clusters[index_optim].append(index_point)` with Python index semantics:
a negative index counts from the end; `clusters` out of range is an error in
Python and is modelled as leaving the list unchanged (never exercised under
the theorems' hypotheses, since the chosen index is proved to be in range). -/
def pyAppend (clusters : List (List Nat)) (j : Int) (x : Nat) :
    List (List Nat) :=
  let jj : Int := if j < 0 then (clusters.length : Int) + j else j
  if 0 ≤ jj ∧ jj < (clusters.length : Int) then
    clusters.set jj.toNat (clusters.getD jj.toNat [] ++ [x])
  else clusters

/-- The outer loop of `__update_clusters` over `range(len(self.__pointer_data))`:
skips points that are medoid indexes, otherwise appends the point to the
cluster of its nearest medoid. -/
def assignPoints {D : Type} (lt : D → D → Bool) (ltInf : D → Bool)
    (data : List Point) (medoid_indexes : List Nat) (medoids : List Point)
    (metric : Point → Point → D) :
    List Nat → List (List Nat) → List (List Nat)
  | [], clusters => clusters
  | p :: rest, clusters =>
    if p ∈ medoid_indexes then
      assignPoints lt ltInf data medoid_indexes medoids metric rest clusters
    else
      assignPoints lt ltInf data medoid_indexes medoids metric rest
        (pyAppend clusters
          (nearestIndexC lt ltInf (medoids.map (fun mp => metric (pget data p) mp)))
          p)

/-- `kmedoids.__update_clusters`, with the float comparison abstracted:
start from one singleton cluster `[medoid_indexes[i]]` per medoid, then assign
every other point to the cluster of its nearest medoid.  The source builds the
seed clusters by iterating `range(len(self.__medoids))` and reading
`self.__medoid_indexes[i]`; the two stored lists always have equal length
(both are set together by the constructor and by every loop iteration), so
the seeds are exactly one singleton per entry of `medoid_indexes`. -/
def update_clustersC {D : Type} (lt : D → D → Bool) (ltInf : D → Bool)
    (data : List Point) (medoid_indexes : List Nat) (medoids : List Point)
    (metric : Point → Point → D) : List (List Nat) :=
  assignPoints lt ltInf data medoid_indexes medoids metric
    (List.range data.length) (medoid_indexes.map (fun m => [m]))

/-- The boolean reading of `<` on rationals. -/
def qlt (a b : ℚ) : Bool := decide (a < b)

/-- Every rational value compares below the `float('Inf')` sentinel. -/
def qltInf (_ : ℚ) : Bool := true

/-- `kmedoids.__update_clusters` under the rational idealisation of floats. -/
def update_clusters (data : List Point) (medoid_indexes : List Nat)
    (medoids : List Point) (metric : Point → Point → ℚ) : List (List Nat) :=
  update_clustersC qlt qltInf data medoid_indexes medoids metric

/-- Modelled from the spec: the total distance `total(c)` of the Medoid
Selector — the sum of distances from candidate `c` to every other member of
the cluster. -/
def clusterTotal (data : List Point) (cluster : List Nat) (c : Nat)
    (metric : Point → Point → ℚ) : ℚ :=
  ((cluster.filter (fun m => m ≠ c)).map
    (fun m => metric (pget data c) (pget data m))).sum

/-- Modelled from the spec: the candidate scan of the Medoid Selector —
fold over the candidates keeping the one with minimum total distance, ties
resolved towards the smaller dataset index. -/
def argminTotal (data : List Point) (cluster : List Nat)
    (metric : Point → Point → ℚ) : List Nat → Nat → Nat
  | [], best => best
  | c :: rest, best =>
    argminTotal data cluster metric rest
      (if clusterTotal data cluster c metric < clusterTotal data cluster best metric ∨
          (clusterTotal data cluster c metric = clusterTotal data cluster best metric ∧
            c < best)
       then c else best)

/-- Modelled from the spec: `pyclustering.utils.median`, the Medoid Selector —
given a cluster's member indices, the member minimising total distance to the
other members, smallest index on ties; an empty cluster is the
`InvalidInputError` condition and yields `none`. -/
def median (data : List Point) (cluster : List Nat)
    (metric : Point → Point → ℚ) : Option Nat :=
  match cluster with
  | [] => none
  | c :: _ => some (argminTotal data cluster metric cluster c)

/-- `kmedoids.__update_medoids`: one `median` call per cluster, collecting the
new medoid points and indexes; `none` models the error propagated from an
empty cluster. -/
def update_medoids (data : List Point) :
    List (List Nat) → (Point → Point → ℚ) → Option (List Point × List Nat)
  | [], _ => some ([], [])
  | c :: cs, metric =>
    match median data c metric, update_medoids data cs metric with
    | some m, some (ms, is') => some (pget data m :: ms, m :: is')
    | _, _ => none

/-- Python `max(list)`: `none` models the `ValueError` raised on an empty list. -/
def pyMaxList : List ℚ → Option ℚ
  | [] => none
  | x :: xs => some (xs.foldl max x)

/-- The convergence measure of `process()`:
`max([ euclidean_square(old_medoid[i], new_medoid[i]) for i in range(len(new)) ])` —
always the squared Euclidean metric, independent of the configured metric. -/
def max_displacement (old new : List Point) : Option ℚ :=
  pyMaxList ((List.range new.length).map
    (fun j => euclidSqDist (pget old j) (pget new j)))

/-- The result of a completed run: the fields read by `get_clusters()` and
`get_medoids()` plus the final medoid indexes. -/
structure RunResult where
  clusters : List (List Nat)
  medoids : List Point
  medoid_indexes : List Nat
deriving DecidableEq

/-- The `while changes > stop_condition` loop of the pure-Python branch of
`process()`, as a fuel-indexed recursion (`none` = fuel exhausted before
convergence, or one of the modelled Python errors).  Each call with positive
fuel performs one assignment/selection iteration and then compares the medoid
displacement against `tolerance * tolerance`, exactly as the do-while shape of
the source (the initial `changes = float('inf')` makes the first iteration
unconditional). -/
def process_loop (data : List Point) (tolerance : ℚ)
    (metric : Point → Point → ℚ) :
    Nat → List Point → List Nat → Option RunResult
  | 0, _, _ => none
  | fuel + 1, medoids, medoid_indexes =>
    let clusters := update_clusters data medoid_indexes medoids metric
    match update_medoids data clusters metric with
    | none => none
    | some (updated_medoids, updated_indexes) =>
      match max_displacement medoids updated_medoids with
      | none => none
      | some changes =>
        if tolerance * tolerance < changes then
          process_loop data tolerance metric fuel updated_medoids updated_indexes
        else
          some { clusters := clusters
                 medoids := updated_medoids
                 medoid_indexes := updated_indexes }

/-- A full pure-Python `process()` run from the constructor-initialised state:
the stored medoid points are the data points at the initial indexes. -/
def pyProcess (data : List Point) (medoid_indexes : List Nat) (tolerance : ℚ)
    (metric : Point → Point → ℚ) (fuel : Nat) : Option RunResult :=
  process_loop data tolerance metric fuel
    (medoid_indexes.map (pget data)) medoid_indexes

/-- The clustering objective: the sum over clusters of the distances from each
member to that cluster's medoid, under the configured metric. -/
def objective (data : List Point) (metric : Point → Point → ℚ)
    (clusters : List (List Nat)) (medoid_indexes : List Nat) : ℚ :=
  ((clusters.zip medoid_indexes).map
    (fun cm => (cm.1.map (fun p => metric (pget data p) (pget data cm.2))).sum)).sum

/-- The medoid index a point is assigned to under a given partition: the
medoid paired with the first cluster containing the point. -/
def assignedMedoid (clusters : List (List Nat)) (medoid_indexes : List Nat)
    (p : Nat) : Nat :=
  match (clusters.zip medoid_indexes).find? (fun cm => decide (p ∈ cm.1)) with
  | some cm => cm.2
  | none => 0

/-- The cluster position `__update_clusters` selects for a point: the result
of the inner loop on the point's distances to the medoids. -/
def assignedPosC {D : Type} (lt : D → D → Bool) (ltInf : D → Bool)
    (data : List Point) (medoids : List Point) (metric : Point → Point → D)
    (p : Nat) : Int :=
  nearestIndexC lt ltInf (medoids.map (fun mp => metric (pget data p) mp))

/-- A concrete caller-supplied distance function used as an input to the
algorithm: non-negative with zero self-distance, but not symmetric — nothing
in the code constrains a USER_DEFINED callable to be symmetric. -/
def asymDist : Point → Point → ℚ := fun a b =>
  if a = b then 0
  else if a = [0] ∧ b = [2] then 4
  else if a = [2] ∧ b = [1] then 4
  else if a = [2] ∧ b = [0] then 1
  else if a = [0] ∧ b = [1] then 1
  else if a = [1] ∧ b = [0] then 1
  else 0

/-! Basic facts about the squared Euclidean distance. -/

theorem euclidSqDist_comm (a b : Point) : euclidSqDist a b = euclidSqDist b a := by
  unfold euclidSqDist
  induction a generalizing b with
  | nil => cases b <;> simp
  | cons x xs ih =>
    cases b with
    | nil => simp
    | cons y ys => simp [ih ys]; ring

theorem euclidSqDist_self (a : Point) : euclidSqDist a a = 0 := by
  unfold euclidSqDist
  induction a with
  | nil => simp
  | cons x xs ih => simp [ih]

/-! Python `max` on a nonempty list. -/

theorem foldl_max_spec (xs : List ℚ) : ∀ x : ℚ,
    x ≤ xs.foldl max x ∧ (∀ y ∈ xs, y ≤ xs.foldl max x) ∧
      (xs.foldl max x = x ∨ xs.foldl max x ∈ xs) := by
  induction xs with
  | nil => intro x; simp
  | cons z zs ih =>
    intro x
    obtain ⟨h1, h2, h3⟩ := ih (max x z)
    refine ⟨le_trans (le_max_left x z) h1, ?_, ?_⟩
    · intro y hy
      rcases List.mem_cons.mp hy with rfl | hy
      · exact le_trans (le_max_right x y) h1
      · exact h2 y hy
    · rcases h3 with h3 | h3
      · rcases max_choice x z with hc | hc
        · left; simpa [hc] using h3
        · right; rw [List.foldl_cons, h3, hc]; exact List.mem_cons_self z zs
      · right; exact List.mem_cons_of_mem z h3

theorem pyMaxList_spec (l : List ℚ) (h : l ≠ []) :
    ∃ m, pyMaxList l = some m ∧ m ∈ l ∧ ∀ x ∈ l, x ≤ m := by
  cases l with
  | nil => exact absurd rfl h
  | cons x xs =>
    obtain ⟨h1, h2, h3⟩ := foldl_max_spec xs x
    refine ⟨xs.foldl max x, rfl, ?_, ?_⟩
    · rcases h3 with h3 | h3
      · rw [h3]; exact List.mem_cons_self x xs
      · exact List.mem_cons_of_mem x h3
    · intro y hy
      rcases List.mem_cons.mp hy with rfl | hy
      · exact h1
      · exact h2 y hy

/-! The inner loop of `__update_clusters`. -/

theorem nearestLoop_bound {D : Type} (lt : D → D → Bool) (ltInf : D → Bool) :
    ∀ (l : List D) (i j : Nat) (d0 : D), j < i →
      ∃ (j1 : Nat) (d1 : D),
        nearestLoop lt ltInf l i ((j : Int), some d0) = ((j1 : Int), some d1) ∧
        j1 < i + l.length := by
  intro l
  induction l with
  | nil =>
    intro i j d0 hj
    exact ⟨j, d0, rfl, by simpa using hj⟩
  | cons d rest ih =>
    intro i j d0 hj
    have hi0 : (i == 0) = false := by
      simp only [beq_eq_false_iff_ne]; omega
    by_cases hc : lt d d0 = true
    · obtain ⟨j1, d1, he, hb⟩ := ih (i + 1) i d (Nat.lt_succ_self i)
      refine ⟨j1, d1, ?_, by simp only [List.length_cons]; omega⟩
      simpa [nearestLoop, hi0, hc] using he
    · obtain ⟨j1, d1, he, hb⟩ := ih (i + 1) j d0 (Nat.lt_succ_of_lt hj)
      refine ⟨j1, d1, ?_, by simp only [List.length_cons]; omega⟩
      simpa [nearestLoop, hi0, hc] using he

theorem nearestIndexC_mem {D : Type} (lt : D → D → Bool) (ltInf : D → Bool)
    (dists : List D) (h : dists ≠ []) :
    ∃ j : Nat, nearestIndexC lt ltInf dists = (j : Int) ∧ j < dists.length := by
  cases dists with
  | nil => exact absurd rfl h
  | cons d rest =>
    obtain ⟨j1, d1, he, hb⟩ := nearestLoop_bound lt ltInf rest 1 0 d Nat.one_pos
    refine ⟨j1, ?_, by simp only [List.length_cons]; omega⟩
    unfold nearestIndexC
    simp only [nearestLoop, beq_self_eq_true, Bool.or_true, if_true]
    rw [he]

theorem getD_mem_of_lt {α : Type} (l : List α) (n : Nat) (d : α)
    (h : n < l.length) : l.getD n d ∈ l := by
  induction l generalizing n with
  | nil => simp at h
  | cons x xs ih =>
    cases n with
    | zero => simp
    | succ n' => simpa using Or.inr (ih n' (by simpa using h))

theorem nearestLoopQ_spec :
    ∀ (l : List ℚ) (i j : Nat) (d0 : ℚ), j < i →
      ∃ (j1 : Nat) (d1 : ℚ),
        nearestLoop qlt qltInf l i ((j : Int), some d0) = ((j1 : Int), some d1) ∧
        j1 < i + l.length ∧ d1 ≤ d0 ∧ (∀ x ∈ l, d1 ≤ x) ∧
        ((j1 = j ∧ d1 = d0) ∨
         (∃ k, k < l.length ∧ j1 = i + k ∧ l.getD k 0 = d1 ∧ d1 < d0 ∧
            ∀ m, m < k → d1 < l.getD m 0)) := by
  intro l
  induction l with
  | nil =>
    intro i j d0 hj
    exact ⟨j, d0, rfl, by simpa using hj, le_refl d0, by simp, Or.inl ⟨rfl, rfl⟩⟩
  | cons d rest ih =>
    intro i j d0 hj
    have hi0 : (i == 0) = false := by
      simp only [beq_eq_false_iff_ne]; omega
    by_cases hc : d < d0
    · have hcb : qlt d d0 = true := by simp [qlt, hc]
      obtain ⟨j1, d1, he, hb, hle, hall, hcase⟩ := ih (i + 1) i d (Nat.lt_succ_self i)
      refine ⟨j1, d1, ?_, by simp only [List.length_cons]; omega,
        le_trans hle (le_of_lt hc), ?_, ?_⟩
      · simpa [nearestLoop, hi0, hcb] using he
      · intro x hx
        rcases List.mem_cons.mp hx with rfl | hx
        · exact hle
        · exact hall x hx
      · right
        rcases hcase with ⟨hj1, hd1⟩ | ⟨k, hk, hj1, hget, hlt, hbefore⟩
        · exact ⟨0, by simp, by omega, by simpa using hd1.symm, hd1 ▸ hc,
            fun m hm => absurd hm (Nat.not_lt_zero m)⟩
        · refine ⟨k + 1, by simpa using hk, by omega, by simpa using hget, lt_trans hlt hc, ?_⟩
          intro m hm
          cases m with
          | zero => simpa using hlt
          | succ m' => simpa using hbefore m' (by omega)
    · have hcb : qlt d d0 = false := by simp [qlt, hc]
      obtain ⟨j1, d1, he, hb, hle, hall, hcase⟩ := ih (i + 1) j d0 (Nat.lt_succ_of_lt hj)
      have hd0d : d0 ≤ d := le_of_not_lt hc
      refine ⟨j1, d1, ?_, by simp only [List.length_cons]; omega, hle, ?_, ?_⟩
      · simpa [nearestLoop, hi0, hcb] using he
      · intro x hx
        rcases List.mem_cons.mp hx with rfl | hx
        · exact le_trans hle hd0d
        · exact hall x hx
      · rcases hcase with ⟨hj1, hd1⟩ | ⟨k, hk, hj1, hget, hlt, hbefore⟩
        · exact Or.inl ⟨hj1, hd1⟩
        · refine Or.inr ⟨k + 1, by simpa using hk, by omega, by simpa using hget, hlt, ?_⟩
          intro m hm
          cases m with
          | zero => simpa using lt_of_lt_of_le hlt hd0d
          | succ m' => simpa using hbefore m' (by omega)

/-- For a nonempty distance list under the rational reading of floats, the
inner loop selects the first position achieving the minimum distance. -/
theorem nearestIndexQ_spec (dists : List ℚ) (h : dists ≠ []) :
    ∃ j : Nat, nearestIndexC qlt qltInf dists = (j : Int) ∧ j < dists.length ∧
      (∀ m, m < dists.length → dists.getD j 0 ≤ dists.getD m 0) ∧
      (∀ m, m < j → dists.getD j 0 < dists.getD m 0) := by
  cases dists with
  | nil => exact absurd rfl h
  | cons d rest =>
    obtain ⟨j1, d1, he, hb, hle, hall, hcase⟩ := nearestLoopQ_spec rest 1 0 d Nat.one_pos
    have hval : nearestIndexC qlt qltInf (d :: rest) = (j1 : Int) := by
      unfold nearestIndexC
      simp only [nearestLoop, beq_self_eq_true, Bool.or_true, if_true]
      rw [he]
    have hgetd1 : (d :: rest).getD j1 0 = d1 := by
      rcases hcase with ⟨hj1, hd1⟩ | ⟨k, hk, hj1, hget, hlt, hbefore⟩
      · subst hj1; simpa using hd1.symm
      · subst hj1; simpa [Nat.add_comm 1 k] using hget
    refine ⟨j1, hval, by simp only [List.length_cons]; omega, ?_, ?_⟩
    · intro m hm
      rw [hgetd1]
      cases m with
      | zero => simpa using hle
      | succ m' =>
        have : rest.getD m' 0 ∈ rest :=
          getD_mem_of_lt rest m' 0 (by simpa using hm)
        simpa using hall _ this
    · intro m hm
      rw [hgetd1]
      rcases hcase with ⟨hj1, _⟩ | ⟨k, hk, hj1, hget, hlt, hbefore⟩
      · omega
      · subst hj1
        cases m with
        | zero => simpa using hlt
        | succ m' => simpa using hbefore m' (by omega)

/-! Facts about `pyAppend` and the outer loop of `__update_clusters`. -/

theorem getD_set_self {α : Type} (l : List α) (i : Nat) (a d : α)
    (h : i < l.length) : (l.set i a).getD i d = a := by
  induction l generalizing i with
  | nil => simp at h
  | cons x xs ih =>
    cases i with
    | zero => simp
    | succ i' => simpa using ih i' (by simpa using h)

theorem getD_set_ne {α : Type} (l : List α) (i k : Nat) (a d : α)
    (h : i ≠ k) : (l.set i a).getD k d = l.getD k d := by
  induction l generalizing i k with
  | nil => simp
  | cons x xs ih =>
    cases i with
    | zero => cases k with
      | zero => exact absurd rfl h
      | succ k' => simp
    | succ i' =>
      cases k with
      | zero => simp
      | succ k' => simpa using ih i' k' (by omega)

theorem pyAppend_nat (clusters : List (List Nat)) (j : Nat) (x : Nat)
    (hj : j < clusters.length) :
    pyAppend clusters (j : Int) x =
      clusters.set j (clusters.getD j [] ++ [x]) := by
  unfold pyAppend
  have h1 : ¬ ((j : Int) < 0) := by omega
  have h2 : (0 : Int) ≤ (j : Int) ∧ (j : Int) < (clusters.length : Int) := by omega
  simp [h1, h2]

theorem length_pyAppend (clusters : List (List Nat)) (j : Int) (x : Nat) :
    (pyAppend clusters j x).length = clusters.length := by
  unfold pyAppend
  by_cases h : (0 : Int) ≤ (if j < 0 then (clusters.length : Int) + j else j) ∧
      (if j < 0 then (clusters.length : Int) + j else j) < (clusters.length : Int)
  · simp [h]
  · simp [h]

theorem flatten_pyAppend (clusters : List (List Nat)) (j : Nat) (x : Nat)
    (hj : j < clusters.length) :
    (pyAppend clusters (j : Int) x).flatten.Perm (x :: clusters.flatten) := by
  rw [pyAppend_nat clusters j x hj]
  induction clusters generalizing j with
  | nil => simp at hj
  | cons c cs ih =>
    cases j with
    | zero =>
      simp only [List.set_cons_zero, List.getD_cons_zero, List.flatten_cons]
      rw [List.append_assoc]
      simp
    | succ j' =>
      simp only [List.set_cons_succ, List.getD_cons_succ, List.flatten_cons]
      have hp := ih j' (by simpa using hj)
      exact (List.Perm.append_left c hp).trans List.perm_middle

theorem length_assignPoints {D : Type} (lt : D → D → Bool) (ltInf : D → Bool)
    (data : List Point) (medoid_indexes : List Nat) (medoids : List Point)
    (metric : Point → Point → D) :
    ∀ (L : List Nat) (CS : List (List Nat)),
      (assignPoints lt ltInf data medoid_indexes medoids metric L CS).length =
        CS.length := by
  intro L
  induction L with
  | nil => intro CS; rfl
  | cons p rest ih =>
    intro CS
    by_cases hp : p ∈ medoid_indexes
    · simpa [assignPoints, hp] using ih CS
    · simp only [assignPoints, hp, if_false]
      rw [ih, length_pyAppend]

theorem assignPoints_flatten {D : Type} (lt : D → D → Bool) (ltInf : D → Bool)
    (data : List Point) (medoid_indexes : List Nat) (medoids : List Point)
    (metric : Point → Point → D) (hm : medoids ≠ []) :
    ∀ (L : List Nat) (CS : List (List Nat)), medoids.length = CS.length →
      (assignPoints lt ltInf data medoid_indexes medoids metric L CS).flatten.Perm
        ((L.filter (fun p => decide (p ∉ medoid_indexes))) ++ CS.flatten) := by
  intro L
  induction L with
  | nil => intro CS _; simp [assignPoints]
  | cons p rest ih =>
    intro CS hlen
    by_cases hp : p ∈ medoid_indexes
    · simpa [assignPoints, hp, List.filter_cons, hp] using ih CS hlen
    · have hdne : medoids.map (fun mp => metric (pget data p) mp) ≠ [] := by
        simpa [List.map_eq_nil_iff] using hm
      obtain ⟨jp, hjval, hjlt⟩ := nearestIndexC_mem lt ltInf _ hdne
      have hjp : jp < CS.length := by
        rw [List.length_map] at hjlt; omega
      have hstep :
          assignPoints lt ltInf data medoid_indexes medoids metric (p :: rest) CS =
            assignPoints lt ltInf data medoid_indexes medoids metric rest
              (pyAppend CS ((jp : Nat) : Int) p) := by
        simp only [assignPoints, hp, if_false, hjval]
      rw [hstep]
      have hlen' : medoids.length = (pyAppend CS ((jp : Nat) : Int) p).length := by
        rw [length_pyAppend]; exact hlen
      have h1 := ih (pyAppend CS ((jp : Nat) : Int) p) hlen'
      have h2 : (pyAppend CS ((jp : Nat) : Int) p).flatten.Perm (p :: CS.flatten) :=
        flatten_pyAppend CS jp p hjp
      have h3 := (List.Perm.append_left
        (rest.filter (fun q => decide (q ∉ medoid_indexes))) h2)
      have h4 : (List.filter (fun q => decide (q ∉ medoid_indexes)) (p :: rest)) =
          p :: rest.filter (fun q => decide (q ∉ medoid_indexes)) := by
        simp [List.filter_cons, hp]
      rw [h4]
      exact (h1.trans h3).trans List.perm_middle

theorem assignPoints_getD {D : Type} (lt : D → D → Bool) (ltInf : D → Bool)
    (data : List Point) (medoid_indexes : List Nat) (medoids : List Point)
    (metric : Point → Point → D) (hm : medoids ≠ []) :
    ∀ (L : List Nat) (CS : List (List Nat)) (j : Nat),
      medoids.length = CS.length → j < CS.length →
      (assignPoints lt ltInf data medoid_indexes medoids metric L CS).getD j [] =
        CS.getD j [] ++ L.filter (fun p => decide (p ∉ medoid_indexes) &&
          (assignedPosC lt ltInf data medoids metric p == (j : Int))) := by
  intro L
  induction L with
  | nil => intro CS j _ _; simp [assignPoints]
  | cons p rest ih =>
    intro CS j hlen hj
    by_cases hp : p ∈ medoid_indexes
    · simpa [assignPoints, hp, List.filter_cons] using ih CS j hlen hj
    · have hdne : medoids.map (fun mp => metric (pget data p) mp) ≠ [] := by
        simpa [List.map_eq_nil_iff] using hm
      obtain ⟨jp, hjval, hjlt⟩ := nearestIndexC_mem lt ltInf _ hdne
      have hjp : jp < CS.length := by
        rw [List.length_map] at hjlt; omega
      have hpos : assignedPosC lt ltInf data medoids metric p = ((jp : Nat) : Int) :=
        hjval
      have hstep :
          assignPoints lt ltInf data medoid_indexes medoids metric (p :: rest) CS =
            assignPoints lt ltInf data medoid_indexes medoids metric rest
              (pyAppend CS ((jp : Nat) : Int) p) := by
        simp only [assignPoints, hp, if_false, hjval]
      rw [hstep, pyAppend_nat CS jp p hjp]
      have hlen' : medoids.length = (CS.set jp (CS.getD jp [] ++ [p])).length := by
        rw [List.length_set]; exact hlen
      have hj' : j < (CS.set jp (CS.getD jp [] ++ [p])).length := by
        rw [List.length_set]; exact hj
      rw [ih _ j hlen' hj']
      by_cases hje : jp = j
      · subst hje
        rw [getD_set_self CS jp _ [] hjp]
        have hcond : (decide (p ∉ medoid_indexes) &&
            (assignedPosC lt ltInf data medoids metric p == ((jp : Nat) : Int))) = true := by
          simp [hp, hpos]
        simp only [List.filter_cons, hcond, if_true]
        simp
      · rw [getD_set_ne CS jp j _ [] hje]
        have hcond : (decide (p ∉ medoid_indexes) &&
            (assignedPosC lt ltInf data medoids metric p == ((j : Nat) : Int))) = false := by
          simp only [hpos, Bool.and_eq_false_iff]
          right
          simpa using fun hh => hje (by exact_mod_cast hh)
        simp only [List.filter_cons, hcond]
        simp

/-! Facts about `__update_clusters`. -/

theorem length_update_clustersC {D : Type} (lt : D → D → Bool) (ltInf : D → Bool)
    (data : List Point) (medoid_indexes : List Nat) (medoids : List Point)
    (metric : Point → Point → D) :
    (update_clustersC lt ltInf data medoid_indexes medoids metric).length =
      medoid_indexes.length := by
  unfold update_clustersC
  rw [length_assignPoints, List.length_map]

theorem getD_map_singleton (l : List Nat) (j : Nat) (hj : j < l.length) :
    (l.map (fun m => [m])).getD j [] = [l.getD j 0] := by
  induction l generalizing j with
  | nil => simp at hj
  | cons x xs ih =>
    cases j with
    | zero => simp
    | succ j' => simpa using ih j' (by simpa using hj)

theorem flatten_map_singleton (l : List Nat) :
    (l.map (fun m => [m])).flatten = l := by
  induction l with
  | nil => rfl
  | cons x xs ih => simpa using ih

theorem update_clustersC_getD {D : Type} (lt : D → D → Bool) (ltInf : D → Bool)
    (data : List Point) (medoid_indexes : List Nat) (medoids : List Point)
    (metric : Point → Point → D) (j : Nat) (hm : medoids ≠ [])
    (hlen : medoids.length = medoid_indexes.length)
    (hj : j < medoid_indexes.length) :
    (update_clustersC lt ltInf data medoid_indexes medoids metric).getD j [] =
      medoid_indexes.getD j 0 ::
        (List.range data.length).filter (fun p => decide (p ∉ medoid_indexes) &&
          (assignedPosC lt ltInf data medoids metric p == (j : Int))) := by
  unfold update_clustersC
  rw [assignPoints_getD lt ltInf data medoid_indexes medoids metric hm _ _ j
    (by rw [List.length_map]; exact hlen) (by rw [List.length_map]; exact hj)]
  rw [getD_map_singleton medoid_indexes j hj]
  rfl

theorem nodup_cover_perm (I : List Nat) (N : Nat) (hnd : I.Nodup)
    (hsub : ∀ m ∈ I, m < N) :
    (I ++ (List.range N).filter (fun p => decide (p ∉ I))).Perm (List.range N) := by
  rw [List.perm_iff_count]
  intro a
  rw [List.count_append]
  have hcr : List.count a (List.range N) = if a < N then 1 else 0 := by
    rw [List.count_eq_of_nodup (List.nodup_range N)]
    simp [List.mem_range]
  have hcf : List.count a ((List.range N).filter (fun p => decide (p ∉ I))) =
      if a < N ∧ a ∉ I then 1 else 0 := by
    rw [List.count_eq_of_nodup (List.Nodup.filter _ (List.nodup_range N))]
    simp [List.mem_filter, List.mem_range]
  rw [List.count_eq_of_nodup hnd, hcr, hcf]
  by_cases haI : a ∈ I
  · have : a < N := hsub a haI
    simp [haI, this]
  · by_cases haN : a < N
    · simp [haI, haN]
    · simp [haI, haN]

theorem update_clustersC_flatten_perm {D : Type} (lt : D → D → Bool)
    (ltInf : D → Bool) (data : List Point) (medoid_indexes : List Nat)
    (medoids : List Point) (metric : Point → Point → D) (hm : medoids ≠ [])
    (hlen : medoids.length = medoid_indexes.length) (hnd : medoid_indexes.Nodup)
    (hsub : ∀ m ∈ medoid_indexes, m < data.length) :
    (update_clustersC lt ltInf data medoid_indexes medoids metric).flatten.Perm
      (List.range data.length) := by
  unfold update_clustersC
  have h1 := assignPoints_flatten lt ltInf data medoid_indexes medoids metric hm
    (List.range data.length) (medoid_indexes.map (fun m => [m]))
    (by rw [List.length_map]; exact hlen)
  rw [flatten_map_singleton] at h1
  have h2 : ((List.range data.length).filter (fun p => decide (p ∉ medoid_indexes)) ++
      medoid_indexes).Perm
      (medoid_indexes ++ (List.range data.length).filter (fun p => decide (p ∉ medoid_indexes))) :=
    List.perm_append_comm
  exact (h1.trans h2).trans (nodup_cover_perm medoid_indexes data.length hnd hsub)

/-! The Medoid Selector (`median`) and `__update_medoids`. -/

theorem argminTotal_mem (data : List Point) (cluster : List Nat)
    (metric : Point → Point → ℚ) :
    ∀ (l : List Nat) (best : Nat),
      argminTotal data cluster metric l best = best ∨
        argminTotal data cluster metric l best ∈ l := by
  intro l
  induction l with
  | nil => intro best; left; rfl
  | cons c rest ih =>
    intro best
    simp only [argminTotal]
    by_cases hc : clusterTotal data cluster c metric <
        clusterTotal data cluster best metric ∨
        (clusterTotal data cluster c metric = clusterTotal data cluster best metric ∧
          c < best)
    · rw [if_pos hc]
      rcases ih c with h | h
      · right; rw [h]; exact List.mem_cons_self c rest
      · right; exact List.mem_cons_of_mem c h
    · rw [if_neg hc]
      rcases ih best with h | h
      · left; exact h
      · right; exact List.mem_cons_of_mem c h

theorem argminTotal_le (data : List Point) (cluster : List Nat)
    (metric : Point → Point → ℚ) :
    ∀ (l : List Nat) (best : Nat),
      clusterTotal data cluster (argminTotal data cluster metric l best) metric ≤
        clusterTotal data cluster best metric ∧
      ∀ c ∈ l,
        clusterTotal data cluster (argminTotal data cluster metric l best) metric ≤
          clusterTotal data cluster c metric := by
  intro l
  induction l with
  | nil => intro best; exact ⟨le_refl _, by simp⟩
  | cons c rest ih =>
    intro best
    simp only [argminTotal]
    by_cases hc : clusterTotal data cluster c metric <
        clusterTotal data cluster best metric ∨
        (clusterTotal data cluster c metric = clusterTotal data cluster best metric ∧
          c < best)
    · rw [if_pos hc]
      obtain ⟨h1, h2⟩ := ih c
      have hcb : clusterTotal data cluster c metric ≤
          clusterTotal data cluster best metric := by
        rcases hc with hc | ⟨hc, _⟩
        · exact le_of_lt hc
        · exact le_of_eq hc
      refine ⟨le_trans h1 hcb, ?_⟩
      intro x hx
      rcases List.mem_cons.mp hx with rfl | hx
      · exact h1
      · exact h2 x hx
    · rw [if_neg hc]
      obtain ⟨h1, h2⟩ := ih best
      have hbc : clusterTotal data cluster best metric ≤
          clusterTotal data cluster c metric := by
        by_contra hcon
        exact hc (Or.inl (lt_of_not_le hcon))
      refine ⟨h1, ?_⟩
      intro x hx
      rcases List.mem_cons.mp hx with rfl | hx
      · exact le_trans h1 hbc
      · exact h2 x hx

theorem median_mem (data : List Point) (cluster : List Nat)
    (metric : Point → Point → ℚ) (m : Nat)
    (h : median data cluster metric = some m) : m ∈ cluster := by
  cases cluster with
  | nil => simp [median] at h
  | cons c rest =>
    simp only [median, Option.some_inj] at h
    rcases argminTotal_mem data (c :: rest) metric (c :: rest) c with h' | h'
    · rw [h] at h'; rw [h']; exact List.mem_cons_self c rest
    · rw [h] at h'; exact h'

theorem median_min (data : List Point) (cluster : List Nat)
    (metric : Point → Point → ℚ) (m : Nat)
    (h : median data cluster metric = some m) :
    ∀ c ∈ cluster, clusterTotal data cluster m metric ≤
      clusterTotal data cluster c metric := by
  cases cluster with
  | nil => simp [median] at h
  | cons c0 rest =>
    simp only [median, Option.some_inj] at h
    obtain ⟨_, h2⟩ := argminTotal_le data (c0 :: rest) metric (c0 :: rest) c0
    intro c hc
    rw [← h] at *
    exact h2 c hc

theorem median_isSome (data : List Point) (cluster : List Nat)
    (metric : Point → Point → ℚ) (h : cluster ≠ []) :
    ∃ m, median data cluster metric = some m := by
  cases cluster with
  | nil => exact absurd rfl h
  | cons c rest => exact ⟨_, rfl⟩

theorem update_medoids_char (data : List Point) (metric : Point → Point → ℚ) :
    ∀ (C : List (List Nat)) (M : List Point) (I : List Nat),
      update_medoids data C metric = some (M, I) →
      M = I.map (pget data) ∧ I.length = C.length ∧
        ∀ j, j < C.length → median data (C.getD j []) metric = some (I.getD j 0) := by
  intro C
  induction C with
  | nil =>
    intro M I h
    simp only [update_medoids, Option.some_inj, Prod.mk.injEq] at h
    obtain ⟨h1, h2⟩ := h
    subst h1; subst h2
    exact ⟨rfl, rfl, by intro j hj; simp at hj⟩
  | cons c cs ih =>
    intro M I h
    simp only [update_medoids] at h
    cases hmed : median data c metric with
    | none => rw [hmed] at h; simp at h
    | some m =>
      rw [hmed] at h
      cases hrec : update_medoids data cs metric with
      | none => rw [hrec] at h; simp at h
      | some p =>
        rw [hrec] at h
        obtain ⟨ms, is'⟩ := p
        simp only [Option.some_inj, Prod.mk.injEq] at h
        obtain ⟨h1, h2⟩ := h
        subst h1; subst h2
        obtain ⟨ih1, ih2, ih3⟩ := ih ms is' hrec
        refine ⟨by rw [ih1]; rfl, by simpa using ih2, ?_⟩
        intro j hj
        cases j with
        | zero => simpa using hmed
        | succ j' => simpa using ih3 j' (by simpa using hj)

theorem update_medoids_isSome (data : List Point) (metric : Point → Point → ℚ) :
    ∀ (C : List (List Nat)), (∀ c ∈ C, c ≠ []) →
      ∃ M I, update_medoids data C metric = some (M, I) := by
  intro C
  induction C with
  | nil => intro _; exact ⟨[], [], rfl⟩
  | cons c cs ih =>
    intro h
    obtain ⟨m, hm⟩ := median_isSome data c metric (h c (List.mem_cons_self c cs))
    obtain ⟨M, I, hMI⟩ := ih (fun x hx => h x (List.mem_cons_of_mem c hx))
    exact ⟨pget data m :: M, m :: I, by simp [update_medoids, hm, hMI]⟩

theorem length_update_clusters (data : List Point) (medoid_indexes : List Nat)
    (medoids : List Point) (metric : Point → Point → ℚ) :
    (update_clusters data medoid_indexes medoids metric).length =
      medoid_indexes.length :=
  length_update_clustersC qlt qltInf data medoid_indexes medoids metric

theorem update_clusters_getD (data : List Point) (medoid_indexes : List Nat)
    (medoids : List Point) (metric : Point → Point → ℚ) (j : Nat)
    (hm : medoids ≠ []) (hlen : medoids.length = medoid_indexes.length)
    (hj : j < medoid_indexes.length) :
    (update_clusters data medoid_indexes medoids metric).getD j [] =
      medoid_indexes.getD j 0 ::
        (List.range data.length).filter (fun p => decide (p ∉ medoid_indexes) &&
          (assignedPosC qlt qltInf data medoids metric p == (j : Int))) :=
  update_clustersC_getD qlt qltInf data medoid_indexes medoids metric j hm hlen hj

theorem update_clusters_flatten_perm (data : List Point)
    (medoid_indexes : List Nat) (medoids : List Point)
    (metric : Point → Point → ℚ) (hm : medoids ≠ [])
    (hlen : medoids.length = medoid_indexes.length) (hnd : medoid_indexes.Nodup)
    (hsub : ∀ m ∈ medoid_indexes, m < data.length) :
    (update_clusters data medoid_indexes medoids metric).flatten.Perm
      (List.range data.length) :=
  update_clustersC_flatten_perm qlt qltInf data medoid_indexes medoids metric
    hm hlen hnd hsub

theorem mem_getD_of_mem {α : Type} (l : List α) (d : α) (c : α) (h : c ∈ l) :
    ∃ j, j < l.length ∧ l.getD j d = c := by
  induction l with
  | nil => simp at h
  | cons x xs ih =>
    rcases List.mem_cons.mp h with rfl | h
    · exact ⟨0, by simp, rfl⟩
    · obtain ⟨j, hj, hg⟩ := ih h
      exact ⟨j + 1, by simpa using hj, by simpa using hg⟩

theorem update_clusters_nonempty (data : List Point) (medoid_indexes : List Nat)
    (medoids : List Point) (metric : Point → Point → ℚ)
    (hne : medoid_indexes ≠ []) (hlen : medoids.length = medoid_indexes.length) :
    ∀ c ∈ update_clusters data medoid_indexes medoids metric, c ≠ [] := by
  intro c hc
  have hm : medoids ≠ [] := by
    intro hnil
    rw [hnil] at hlen
    exact hne (List.eq_nil_of_length_eq_zero hlen.symm)
  obtain ⟨j, hj, hg⟩ := mem_getD_of_mem _ [] c hc
  rw [length_update_clusters] at hj
  rw [update_clusters_getD data medoid_indexes medoids metric j hm hlen hj] at hg
  rw [← hg]
  exact List.cons_ne_nil _ _

/-- C1: with the pure-Python implementation, each pass of the refinement loop
computes the maximum over clusters of the squared Euclidean distance between
the old and new medoid points — regardless of the configured clustering
`metric`, which is universally quantified here — and the loop returns the
current partition exactly when that displacement is at most `tolerance²`,
performing another iteration exactly when it exceeds `tolerance²`. -/
theorem kmedoids_convergence_criterion
    (data : List Point) (tolerance : ℚ) (metric : Point → Point → ℚ)
    (fuel : Nat) (medoids : List Point) (medoid_indexes : List Nat)
    (hne : medoid_indexes ≠ []) (hlen : medoids.length = medoid_indexes.length) :
    ∃ (newMedoids : List Point) (newIndexes : List Nat) (disp : ℚ),
      update_medoids data (update_clusters data medoid_indexes medoids metric) metric =
        some (newMedoids, newIndexes) ∧
      max_displacement medoids newMedoids = some disp ∧
      (∀ j, j < newMedoids.length →
        euclidSqDist (pget medoids j) (pget newMedoids j) ≤ disp) ∧
      (∃ j, j < newMedoids.length ∧
        disp = euclidSqDist (pget medoids j) (pget newMedoids j)) ∧
      (disp ≤ tolerance * tolerance →
        process_loop data tolerance metric (fuel + 1) medoids medoid_indexes =
          some { clusters := update_clusters data medoid_indexes medoids metric,
                 medoids := newMedoids, medoid_indexes := newIndexes }) ∧
      (tolerance * tolerance < disp →
        process_loop data tolerance metric (fuel + 1) medoids medoid_indexes =
          process_loop data tolerance metric fuel newMedoids newIndexes) := by
  obtain ⟨M', I', hsome⟩ := update_medoids_isSome data metric
    (update_clusters data medoid_indexes medoids metric)
    (update_clusters_nonempty data medoid_indexes medoids metric hne hlen)
  obtain ⟨hM, hIlen, _⟩ := update_medoids_char data metric _ M' I' hsome
  have hM'len : M' ≠ [] := by
    have h1 : I'.length = medoid_indexes.length := by
      rw [hIlen, length_update_clusters]
    intro hnil
    rw [hM] at hnil
    have : I' = [] := by simpa using hnil
    rw [this] at h1
    exact hne (List.eq_nil_of_length_eq_zero h1.symm)
  have hLne : (List.range M'.length).map
      (fun j => euclidSqDist (pget medoids j) (pget M' j)) ≠ [] := by
    simp only [ne_eq, List.map_eq_nil_iff, List.range_eq_nil]
    intro h0
    exact hM'len (List.eq_nil_of_length_eq_zero h0)
  obtain ⟨disp, hdisp, hdmem, hdmax⟩ := pyMaxList_spec _ hLne
  have hdispeq : max_displacement medoids M' = some disp := hdisp
  refine ⟨M', I', disp, hsome, hdispeq, ?_, ?_, ?_, ?_⟩
  · intro j hj
    exact hdmax _ (List.mem_map.mpr ⟨j, List.mem_range.mpr hj, rfl⟩)
  · obtain ⟨j, hjr, hjv⟩ := List.mem_map.mp hdmem
    exact ⟨j, List.mem_range.mp hjr, hjv.symm⟩
  · intro hstop
    simp only [process_loop]
    rw [hsome]
    simp only [hdispeq]
    simp only [not_lt.mpr hstop, if_false]
  · intro hgo
    simp only [process_loop]
    rw [hsome]
    simp only [hdispeq]
    simp only [hgo, if_true]

/-! Determinism of the refinement loop. -/

theorem process_loop_mono (data : List Point) (tol : ℚ)
    (metric : Point → Point → ℚ) :
    ∀ (fuel k : Nat) (medoids : List Point) (I : List Nat) (r : RunResult),
      process_loop data tol metric fuel medoids I = some r →
      process_loop data tol metric (fuel + k) medoids I = some r := by
  intro fuel
  induction fuel with
  | zero => intro k m I r h; simp [process_loop] at h
  | succ f ih =>
    intro k m I r h
    have hk : f + 1 + k = (f + k) + 1 := by omega
    rw [hk]
    simp only [process_loop] at h ⊢
    cases hum : update_medoids data (update_clusters data I m metric) metric with
    | none => rw [hum] at h; simp at h
    | some p =>
      obtain ⟨M', I'⟩ := p
      rw [hum] at h
      dsimp only at h
      cases hmd : max_displacement m M' with
      | none => rw [hmd] at h; simp at h
      | some ch =>
        rw [hmd] at h
        dsimp only at h
        dsimp only
        rw [hmd]
        dsimp only
        by_cases hc : tol * tol < ch
        · rw [if_pos hc] at h ⊢; exact ih k M' I' r h
        · rw [if_neg hc] at h ⊢; exact h

/-- C8: `process()` is a deterministic function of the dataset, initial medoid
indexes, tolerance and metric: any two completed runs on identical inputs
return the same clusters, medoid points and medoid indexes, regardless of how
much fuel each run was given. -/
theorem kmedoids_deterministic (data : List Point) (medoid_indexes : List Nat)
    (tolerance : ℚ) (metric : Point → Point → ℚ) (fuel1 fuel2 : Nat)
    (r1 r2 : RunResult)
    (h1 : pyProcess data medoid_indexes tolerance metric fuel1 = some r1)
    (h2 : pyProcess data medoid_indexes tolerance metric fuel2 = some r2) :
    r1 = r2 := by
  unfold pyProcess at h1 h2
  rcases Nat.le_total fuel1 fuel2 with hle | hle
  · obtain ⟨k, rfl⟩ := Nat.le.dest hle
    rw [process_loop_mono data tolerance metric fuel1 k _ _ r1 h1] at h2
    exact Option.some_inj.mp h2
  · obtain ⟨k, rfl⟩ := Nat.le.dest hle
    rw [process_loop_mono data tolerance metric fuel2 k _ _ r2 h2] at h1
    exact (Option.some_inj.mp h1).symm

/-! The partition invariant along the refinement loop. -/

theorem mem_flatten_of_getD (C : List (List Nat)) (j : Nat) (x : Nat)
    (hj : j < C.length) (hx : x ∈ C.getD j []) : x ∈ C.flatten :=
  List.mem_flatten_of_mem (getD_mem_of_lt C j [] hj) hx

theorem nodup_of_positional_mem :
    ∀ (I : List Nat) (C : List (List Nat)), I.length = C.length →
      C.flatten.Nodup → (∀ j, j < I.length → I.getD j 0 ∈ C.getD j []) →
      I.Nodup := by
  intro I
  induction I with
  | nil => intro C _ _ _; exact List.nodup_nil
  | cons i is ih =>
    intro C hlen hnd hmem
    cases C with
    | nil => simp at hlen
    | cons c cs =>
      have hic : i ∈ c := by simpa using hmem 0 (by simp)
      have hnd' : (c ++ cs.flatten).Nodup := by simpa using hnd
      obtain ⟨hndc, hndcs, hdisj⟩ := List.nodup_append.mp hnd'
      refine List.nodup_cons.mpr ⟨?_, ?_⟩
      · intro hmemis
        obtain ⟨j, hj, hg⟩ := mem_getD_of_mem is 0 i hmemis
        have h1 := hmem (j + 1) (by simpa using hj)
        rw [List.getD_cons_succ, List.getD_cons_succ, hg] at h1
        have h2 : i ∈ cs.flatten :=
          mem_flatten_of_getD cs j i (by
            have := hlen; simp at this; omega) h1
        exact hdisj hic h2
      · exact ih cs (by simpa using hlen) (by simpa using hndcs) (by
          intro j hj
          simpa using hmem (j + 1) (by simpa using hj))

theorem process_loop_partition (data : List Point) (tol : ℚ)
    (metric : Point → Point → ℚ) :
    ∀ (fuel : Nat) (medoids : List Point) (I : List Nat) (r : RunResult),
      I ≠ [] → I.Nodup → (∀ m ∈ I, m < data.length) →
      medoids = I.map (pget data) →
      process_loop data tol metric fuel medoids I = some r →
      r.clusters.length = I.length ∧
      r.medoid_indexes.length = I.length ∧
      r.clusters.flatten.Perm (List.range data.length) ∧
      (∀ j, j < I.length → r.medoid_indexes.getD j 0 ∈ r.clusters.getD j []) ∧
      r.medoids = r.medoid_indexes.map (pget data) := by
  intro fuel
  induction fuel with
  | zero => intro m I r _ _ _ _ h; simp [process_loop] at h
  | succ f ih =>
    intro m I r hne hnd hsub hmeq h
    have hlen : m.length = I.length := by rw [hmeq, List.length_map]
    have hm : m ≠ [] := by
      intro hnil
      rw [hnil] at hlen
      exact hne (List.eq_nil_of_length_eq_zero hlen.symm)
    have hflat := update_clusters_flatten_perm data I m metric hm hlen hnd hsub
    have hndflat : (update_clusters data I m metric).flatten.Nodup :=
      (List.Perm.nodup_iff hflat).mpr (List.nodup_range data.length)
    have hclen : (update_clusters data I m metric).length = I.length :=
      length_update_clusters data I m metric
    simp only [process_loop] at h
    cases hum : update_medoids data (update_clusters data I m metric) metric with
    | none => rw [hum] at h; simp at h
    | some p =>
      obtain ⟨M', I'⟩ := p
      rw [hum] at h
      dsimp only at h
      obtain ⟨hM, hIlen, hmedian⟩ := update_medoids_char data metric _ M' I' hum
      have hIlen' : I'.length = I.length := by rw [hIlen, hclen]
      have hmem : ∀ j, j < I.length →
          I'.getD j 0 ∈ (update_clusters data I m metric).getD j [] := by
        intro j hj
        exact median_mem data _ metric _ (hmedian j (by rw [hclen]; exact hj))
      have hne' : I' ≠ [] := by
        intro hnil
        rw [hnil] at hIlen'
        exact hne (List.eq_nil_of_length_eq_zero hIlen'.symm)
      have hnd' : I'.Nodup :=
        nodup_of_positional_mem I' (update_clusters data I m metric)
          (by rw [hIlen', hclen]) hndflat
          (by intro j hj; exact hmem j (by omega))
      have hsub' : ∀ q ∈ I', q < data.length := by
        intro q hq
        obtain ⟨j, hj, hg⟩ := mem_getD_of_mem I' 0 q hq
        have hqin : q ∈ (update_clusters data I m metric).flatten := by
          refine mem_flatten_of_getD _ j q (by rw [hclen]; omega) ?_
          rw [← hg]
          exact hmem j (by omega)
        have := (List.Perm.mem_iff hflat).mp hqin
        exact List.mem_range.mp this
      cases hmd : max_displacement m M' with
      | none => rw [hmd] at h; simp at h
      | some ch =>
        rw [hmd] at h
        dsimp only at h
        by_cases hc : tol * tol < ch
        · rw [if_pos hc] at h
          obtain ⟨c1, c2, c3, c4, c5⟩ := ih M' I' r hne' hnd' hsub' hM h
          exact ⟨by rw [c1, hIlen'], by rw [c2, hIlen'], c3, by
            intro j hj
            exact c4 j (by omega), c5⟩
        · rw [if_neg hc] at h
          have hr : r = RunResult.mk (update_clusters data I m metric) M' I' :=
            (Option.some_inj.mp h).symm
          subst hr
          exact ⟨hclen, hIlen', hflat, fun j hj => hmem j hj, hM⟩

/-- C2: for distinct, in-range (and per the interface contract nonempty)
initial medoid indexes, the cluster-update step yields exactly one cluster per
medoid, each containing its own medoid's index, pairwise disjoint, whose union
is a permutation of the full index range `0..N-1`; and the clusters held after
a completed `process()` run satisfy the same partition properties, with as
many clusters (and final medoid indexes) as initial medoids, each cluster
containing its own final medoid's index. -/
theorem kmedoids_partition_invariant
    (data : List Point) (medoid_indexes : List Nat) (medoids : List Point)
    (metric : Point → Point → ℚ) (tolerance : ℚ) (fuel : Nat)
    (hnd : medoid_indexes.Nodup) (hsub : ∀ q ∈ medoid_indexes, q < data.length)
    (hne : medoid_indexes ≠ []) (hlen : medoids.length = medoid_indexes.length) :
    ((update_clusters data medoid_indexes medoids metric).length =
        medoid_indexes.length ∧
     (∀ j, j < medoid_indexes.length → medoid_indexes.getD j 0 ∈
        (update_clusters data medoid_indexes medoids metric).getD j []) ∧
     (update_clusters data medoid_indexes medoids metric).flatten.Perm
        (List.range data.length) ∧
     (update_clusters data medoid_indexes medoids metric).Pairwise List.Disjoint) ∧
    (∀ r, pyProcess data medoid_indexes tolerance metric fuel = some r →
       r.clusters.length = medoid_indexes.length ∧
       r.medoid_indexes.length = medoid_indexes.length ∧
       r.clusters.flatten.Perm (List.range data.length) ∧
       r.clusters.Pairwise List.Disjoint ∧
       (∀ j, j < medoid_indexes.length →
         r.medoid_indexes.getD j 0 ∈ r.clusters.getD j [])) := by
  have hm : medoids ≠ [] := by
    intro hnil
    rw [hnil] at hlen
    exact hne (List.eq_nil_of_length_eq_zero hlen.symm)
  have hflat := update_clusters_flatten_perm data medoid_indexes medoids metric
    hm hlen hnd hsub
  constructor
  · refine ⟨length_update_clusters data medoid_indexes medoids metric, ?_, hflat, ?_⟩
    · intro j hj
      rw [update_clusters_getD data medoid_indexes medoids metric j hm hlen hj]
      exact List.mem_cons_self _ _
    · have hndflat : (update_clusters data medoid_indexes medoids metric).flatten.Nodup :=
        (List.Perm.nodup_iff hflat).mpr (List.nodup_range data.length)
      exact (List.nodup_flatten.mp hndflat).2
  · intro r hr
    obtain ⟨c1, c2, c3, c4, _⟩ := process_loop_partition data tolerance metric fuel
      (medoid_indexes.map (pget data)) medoid_indexes r hne hnd hsub rfl hr
    refine ⟨c1, c2, c3, ?_, c4⟩
    have hndflat : r.clusters.flatten.Nodup :=
      (List.Perm.nodup_iff c3).mpr (List.nodup_range data.length)
    exact (List.nodup_flatten.mp hndflat).2

/-- C5: after every medoid-update step the medoid index selected for cluster
`i` is a member of cluster `i` (it is drawn from the cluster's own members by
the Medoid Selector), and the same membership holds between the final medoid
indexes and clusters of any completed `process()` run. -/
theorem kmedoids_medoid_membership (data : List Point)
    (metric : Point → Point → ℚ) :
    (∀ (clusters : List (List Nat)) (M : List Point) (I : List Nat),
       update_medoids data clusters metric = some (M, I) →
       I.length = clusters.length ∧
       ∀ j, j < I.length → I.getD j 0 ∈ clusters.getD j []) ∧
    (∀ (medoid_indexes : List Nat) (tolerance : ℚ) (fuel : Nat) (r : RunResult),
       pyProcess data medoid_indexes tolerance metric fuel = some r →
       ∀ j, j < r.medoid_indexes.length →
         r.medoid_indexes.getD j 0 ∈ r.clusters.getD j []) := by
  constructor
  · intro clusters M I h
    obtain ⟨_, hIlen, hmedian⟩ := update_medoids_char data metric clusters M I h
    refine ⟨hIlen, ?_⟩
    intro j hj
    exact median_mem data _ metric _ (hmedian j (by omega))
  · intro medoid_indexes tolerance fuel r hr
    unfold pyProcess at hr
    induction fuel generalizing medoid_indexes r with
    | zero => simp [process_loop] at hr
    | succ f ih =>
      simp only [process_loop] at hr
      cases hum : update_medoids data
          (update_clusters data medoid_indexes
            (medoid_indexes.map (pget data)) metric) metric with
      | none => rw [hum] at hr; simp at hr
      | some p =>
        obtain ⟨M', I'⟩ := p
        rw [hum] at hr
        dsimp only at hr
        cases hmd : max_displacement (medoid_indexes.map (pget data)) M' with
        | none => rw [hmd] at hr; simp at hr
        | some ch =>
          rw [hmd] at hr
          dsimp only at hr
          by_cases hc : tolerance * tolerance < ch
          · rw [if_pos hc] at hr
            obtain ⟨hM, _, _⟩ := update_medoids_char data metric _ M' I' hum
            rw [hM] at hr
            exact ih I' r hr
          · rw [if_neg hc] at hr
            have hreq : r = RunResult.mk
                (update_clusters data medoid_indexes
                  (medoid_indexes.map (pget data)) metric) M' I' :=
              (Option.some_inj.mp hr).symm
            subst hreq
            obtain ⟨hM, hIlen, hmedian⟩ := update_medoids_char data metric _ M' I' hum
            intro j hj
            refine median_mem data _ metric _ (hmedian j ?_)
            simp only at hj
            omega

theorem getD_map_lt {α β : Type} (f : α → β) (l : List α) (i : Nat) (d : β)
    (d' : α) (h : i < l.length) : (l.map f).getD i d = f (l.getD i d') := by
  induction l generalizing i with
  | nil => simp at h
  | cons x xs ih =>
    cases i with
    | zero => simp
    | succ i' => simpa using ih i' (by simpa using h)

theorem update_clusters_assign
    (data : List Point) (medoid_indexes : List Nat) (medoids : List Point)
    (metric : Point → Point → ℚ) (p : Nat)
    (hne : medoid_indexes ≠ []) (hlen : medoids.length = medoid_indexes.length)
    (hp : p < data.length) (hnm : p ∉ medoid_indexes) :
    ∃ j, j < medoid_indexes.length ∧
      p ∈ (update_clusters data medoid_indexes medoids metric).getD j [] ∧
      (∀ i, i < medoid_indexes.length →
        metric (pget data p) (pget medoids j) ≤
          metric (pget data p) (pget medoids i)) ∧
      (∀ i, i < j →
        metric (pget data p) (pget medoids j) <
          metric (pget data p) (pget medoids i)) ∧
      (∀ i, i < medoid_indexes.length → i ≠ j →
        p ∉ (update_clusters data medoid_indexes medoids metric).getD i []) := by
  have hm : medoids ≠ [] := by
    intro hnil
    rw [hnil] at hlen
    exact hne (List.eq_nil_of_length_eq_zero hlen.symm)
  have hdne : medoids.map (fun mp => metric (pget data p) mp) ≠ [] := by
    simpa [List.map_eq_nil_iff] using hm
  obtain ⟨j, hval, hjlt, hmin, hstrict⟩ := nearestIndexQ_spec _ hdne
  rw [List.length_map] at hjlt
  have hgd : ∀ i, i < medoids.length →
      (medoids.map (fun mp => metric (pget data p) mp)).getD i 0 =
        metric (pget data p) (pget medoids i) := by
    intro i hi
    exact getD_map_lt _ medoids i 0 [] hi
  have hpos : assignedPosC qlt qltInf data medoids metric p = (j : Int) := hval
  refine ⟨j, by omega, ?_, ?_, ?_, ?_⟩
  · rw [update_clusters_getD data medoid_indexes medoids metric j hm hlen (by omega)]
    refine List.mem_cons_of_mem _ (List.mem_filter.mpr ⟨List.mem_range.mpr hp, ?_⟩)
    simp [hnm, hpos]
  · intro i hi
    have h1 := hmin i (by rw [List.length_map]; omega)
    rwa [hgd j hjlt, hgd i (by omega)] at h1
  · intro i hi
    have h1 := hstrict i hi
    rwa [hgd j hjlt, hgd i (by omega)] at h1
  · intro i hi hij
    rw [update_clusters_getD data medoid_indexes medoids metric i hm hlen hi]
    intro hcon
    rcases List.mem_cons.mp hcon with heq | hmemf
    · exact hnm (heq ▸ getD_mem_of_lt medoid_indexes i 0 hi)
    · have := (List.mem_filter.mp hmemf).2
      simp only [hpos, Bool.and_eq_true, beq_iff_eq] at this
      exact hij (by exact_mod_cast this.2.symm)

/-- C4: a non-medoid point is put into the cluster whose position is the
first (lowest) position among the medoids at minimum distance under the
configured metric: its distance to the chosen medoid is a global minimum and
is strictly smaller than its distance to every earlier-positioned medoid; and
the point lands in no other cluster, so the assignment is deterministic. -/
theorem kmedoids_assignment_tiebreak
    (data : List Point) (medoid_indexes : List Nat) (medoids : List Point)
    (metric : Point → Point → ℚ) (p : Nat)
    (hne : medoid_indexes ≠ []) (hlen : medoids.length = medoid_indexes.length)
    (hp : p < data.length) (hnm : p ∉ medoid_indexes) :
    ∃ j, j < medoid_indexes.length ∧
      p ∈ (update_clusters data medoid_indexes medoids metric).getD j [] ∧
      (∀ i, i < medoid_indexes.length →
        metric (pget data p) (pget medoids j) ≤
          metric (pget data p) (pget medoids i)) ∧
      (∀ i, i < j →
        metric (pget data p) (pget medoids j) <
          metric (pget data p) (pget medoids i)) ∧
      (∀ i, i < medoid_indexes.length → i ≠ j →
        p ∉ (update_clusters data medoid_indexes medoids metric).getD i []) :=
  update_clusters_assign data medoid_indexes medoids metric p hne hlen hp hnm

/-- C10: for every possible boolean behaviour of the float comparisons
(including one where every comparison involving the computed distances is
false, as with NaN or infinite distances), as long as there is at least one
medoid: the inner loop never keeps the `-1` sentinel — it returns an in-range
position — and the assignment step appends every non-medoid point to exactly
one existing cluster, so the flattened result is a permutation of the medoid
indexes plus the non-medoid index range and no point is dropped. -/
theorem kmedoids_assignment_total
    {D : Type} (lt : D → D → Bool) (ltInf : D → Bool)
    (data : List Point) (medoid_indexes : List Nat) (medoids : List Point)
    (metric : Point → Point → D)
    (hne : medoid_indexes ≠ []) (hlen : medoids.length = medoid_indexes.length) :
    (∀ dists : List D, dists ≠ [] →
       ∃ j : Nat, nearestIndexC lt ltInf dists = (j : Int) ∧ j < dists.length) ∧
    (update_clustersC lt ltInf data medoid_indexes medoids metric).length =
      medoid_indexes.length ∧
    (update_clustersC lt ltInf data medoid_indexes medoids metric).flatten.Perm
      (medoid_indexes ++
        (List.range data.length).filter (fun p => decide (p ∉ medoid_indexes))) := by
  have hm : medoids ≠ [] := by
    intro hnil
    rw [hnil] at hlen
    exact hne (List.eq_nil_of_length_eq_zero hlen.symm)
  refine ⟨fun dists hd => nearestIndexC_mem lt ltInf dists hd,
    length_update_clustersC lt ltInf data medoid_indexes medoids metric, ?_⟩
  unfold update_clustersC
  have h1 := assignPoints_flatten lt ltInf data medoid_indexes medoids metric hm
    (List.range data.length) (medoid_indexes.map (fun m => [m]))
    (by rw [List.length_map]; exact hlen)
  rw [flatten_map_singleton] at h1
  exact h1.trans List.perm_append_comm

/-! Facts about the constructor. -/

theorem pyIndex_cases (data : List Point) (i : Int) :
    (¬ (-(data.length : Int) ≤ i ∧ i < (data.length : Int)) →
      pyIndex data i = Except.error PyErr.indexError) ∧
    ((-(data.length : Int) ≤ i ∧ i < (data.length : Int)) →
      ∃ p, pyIndex data i = Except.ok p) := by
  unfold pyIndex
  constructor
  · intro hout
    have h1 : ¬ ((0 : Int) ≤ i ∧ i < (data.length : Int)) := by omega
    have h2 : ¬ ((-(data.length : Int)) ≤ i ∧ i < 0) := by omega
    simp only [h1, if_false, h2]
  · intro hin
    by_cases h1 : (0 : Int) ≤ i ∧ i < (data.length : Int)
    · refine ⟨data.getD i.toNat [], ?_⟩
      simp [h1]
    · have h2 : (-(data.length : Int)) ≤ i ∧ i < 0 := by omega
      refine ⟨data.getD ((data.length : Int) + i).toNat [], ?_⟩
      simp [h1, h2]

theorem pyGetPoints_spec (data : List Point) :
    ∀ initial : List Int,
      ((∃ e, pyGetPoints data initial = Except.error e) ↔
        ∃ i ∈ initial, ¬ (-(data.length : Int) ≤ i ∧ i < (data.length : Int))) ∧
      (∀ e, pyGetPoints data initial = Except.error e → e = PyErr.indexError) := by
  intro initial
  induction initial with
  | nil =>
    constructor
    · constructor
      · intro ⟨e, he⟩; simp [pyGetPoints] at he
      · intro ⟨i, hi, _⟩; simp at hi
    · intro e he; simp [pyGetPoints] at he
  | cons i rest ih =>
    obtain ⟨ih1, ih2⟩ := ih
    by_cases hin : (-(data.length : Int) ≤ i ∧ i < (data.length : Int))
    · obtain ⟨p, hp⟩ := (pyIndex_cases data i).2 hin
      constructor
      · constructor
        · intro ⟨e, he⟩
          simp only [pyGetPoints, hp] at he
          cases hrest : pyGetPoints data rest with
          | error e' =>
            obtain ⟨j, hj, hjout⟩ := ih1.mp ⟨e', hrest⟩
            exact ⟨j, List.mem_cons_of_mem i hj, hjout⟩
          | ok ps => rw [hrest] at he; simp at he
        · intro ⟨j, hj, hjout⟩
          rcases List.mem_cons.mp hj with rfl | hj
          · exact absurd hin hjout
          · obtain ⟨e, he⟩ := ih1.mpr ⟨j, hj, hjout⟩
            refine ⟨e, ?_⟩
            simp only [pyGetPoints, hp, he]
      · intro e he
        simp only [pyGetPoints, hp] at he
        cases hrest : pyGetPoints data rest with
        | error e' =>
          rw [hrest] at he
          simp only [Except.error.injEq] at he
          exact he ▸ ih2 e' hrest
        | ok ps => rw [hrest] at he; simp at he
    · have hp := (pyIndex_cases data i).1 hin
      constructor
      · constructor
        · intro _
          exact ⟨i, List.mem_cons_self i rest, hin⟩
        · intro _
          exact ⟨PyErr.indexError, by simp only [pyGetPoints, hp]⟩
      · intro e he
        simp only [pyGetPoints, hp, Except.error.injEq] at he
        exact he.symm

theorem kmedoids_init_error_iff (data : List Point) (initial : List Int)
    (tolerance : ℚ) (ccore : Bool) (metricArg : Option distance_metric)
    (workable : Bool) (e : PyErr) :
    kmedoids_init data initial tolerance ccore metricArg workable =
        Except.error e ↔
      pyGetPoints data initial = Except.error e := by
  unfold kmedoids_init
  cases hg : pyGetPoints data initial with
  | error e' => simp
  | ok ps => simp

/-- C6 counterexample: the constructor performs no input validation.  On the
dataset `[[0],[1],[2]]` with the duplicated initial medoid indexes `[1, 1]`
(which the claim says must fail with `InvalidInputError` before any iteration)
construction succeeds; it also succeeds on an empty dataset with an empty
medoid list; and an out-of-range index `5` fails with a generic `IndexError`
from the lookup `data[5]`, not with `InvalidInputError`. -/
theorem kmedoids_init_no_validation :
    exceptIsOk (kmedoids_init [[0], [1], [2]] [1, 1] (1/4) true none true) = true ∧
    exceptIsOk (kmedoids_init [] [] (1/4) true none true) = true ∧
    kmedoids_init [[0], [1], [2]] [5] (1/4) true none true =
      Except.error PyErr.indexError := by
  refine ⟨rfl, rfl, ?_⟩
  rfl

/-- C6 amended: the constructor validates nothing about emptiness or
duplication — an empty dataset (with an empty medoid list), an empty medoid
list, or duplicate medoid indexes all construct successfully — and the only
failure it can produce is a generic `IndexError`, raised exactly when some
initial medoid index is outside Python's index range
`-len(data) ≤ i < len(data)`; `InvalidInputError` is never raised. -/
theorem kmedoids_init_validation (data : List Point) (initial : List Int)
    (tolerance : ℚ) (ccore : Bool) (metricArg : Option distance_metric)
    (workable : Bool) :
    ((∃ e, kmedoids_init data initial tolerance ccore metricArg workable =
        Except.error e) ↔
      ∃ i ∈ initial, ¬ (-(data.length : Int) ≤ i ∧ i < (data.length : Int))) ∧
    (∀ e, kmedoids_init data initial tolerance ccore metricArg workable =
        Except.error e → e = PyErr.indexError) := by
  obtain ⟨h1, h2⟩ := pyGetPoints_spec data initial
  constructor
  · constructor
    · intro ⟨e, he⟩
      exact h1.mp ⟨e, (kmedoids_init_error_iff data initial tolerance ccore
        metricArg workable e).mp he⟩
    · intro hout
      obtain ⟨e, he⟩ := h1.mpr hout
      exact ⟨e, (kmedoids_init_error_iff data initial tolerance ccore
        metricArg workable e).mpr he⟩
  · intro e he
    exact h2 e ((kmedoids_init_error_iff data initial tolerance ccore
      metricArg workable e).mp he)

theorem kmedoids_init_ok_state (data : List Point) (initial : List Int)
    (tolerance : ℚ) (ccore : Bool) (metricArg : Option distance_metric)
    (workable : Bool) (st : kmedoidsState)
    (h : kmedoids_init data initial tolerance ccore metricArg workable =
      Except.ok st) :
    st.metric = metricArg.getD euclideanSquareMetric ∧
    st.ccore = ((ccore &&
        decide ((metricArg.getD euclideanSquareMetric).mtype ≠
          type_metric.USER_DEFINED)) && workable) := by
  unfold kmedoids_init at h
  cases hg : pyGetPoints data initial with
  | error e => rw [hg] at h; simp at h
  | ok ps =>
    rw [hg] at h
    dsimp only at h
    have hst := Except.ok.inj h
    rw [← hst]
    refine ⟨rfl, ?_⟩
    cases hb : (ccore && decide ((metricArg.getD euclideanSquareMetric).mtype ≠
        type_metric.USER_DEFINED)) <;> simp [hb]

/-- C7: the accelerated backend flag stored by the constructor is `true`
exactly when the caller asked for it, the configured metric is not
user-defined, and the core library is workable; whenever the metric is
user-defined or the library is not workable, `process()` takes the pure
Python path, so a user-defined metric never reaches the accelerated backend. -/
theorem kmedoids_ccore_selection (data : List Point) (initial : List Int)
    (tolerance : ℚ) (ccore : Bool) (metricArg : Option distance_metric)
    (workable : Bool) (st : kmedoidsState)
    (h : kmedoids_init data initial tolerance ccore metricArg workable =
      Except.ok st) :
    (st.ccore = true ↔
      (ccore = true ∧ st.metric.mtype ≠ type_metric.USER_DEFINED ∧
        workable = true)) ∧
    ((st.metric.mtype = type_metric.USER_DEFINED ∨ workable = false) →
      processPath st = ProcessPath.pythonPath) := by
  obtain ⟨hmet, hcc⟩ := kmedoids_init_ok_state data initial tolerance ccore
    metricArg workable st h
  constructor
  · rw [hcc, hmet]
    simp only [Bool.and_eq_true, decide_eq_true_eq]
    tauto
  · intro hcase
    have hccf : st.ccore = false := by
      rw [hcc]
      rcases hcase with hcase | hcase
      · rw [hmet] at hcase
        simp [hcase]
      · simp [hcase]
    unfold processPath
    rw [hccf]
    simp

/-- C9: when the `metric` keyword argument is omitted or passed as `None`
(both modelled by `none`), the constructor configures the squared Euclidean
metric: the stored metric is the `EUCLIDEAN_SQUARE` instance and its distance
function is the squared Euclidean distance. -/
theorem kmedoids_default_metric (data : List Point) (initial : List Int)
    (tolerance : ℚ) (ccore : Bool) (workable : Bool) (st : kmedoidsState)
    (h : kmedoids_init data initial tolerance ccore none workable =
      Except.ok st) :
    st.metric = euclideanSquareMetric ∧
    st.metric.mtype = type_metric.EUCLIDEAN_SQUARE ∧
    st.metric.dist = euclidSqDist := by
  obtain ⟨hmet, _⟩ := kmedoids_init_ok_state data initial tolerance ccore
    none workable st h
  simp only [Option.getD_none] at hmet
  exact ⟨hmet, by rw [hmet]; rfl, by rw [hmet]; rfl⟩

/-! The clustering objective and its monotonicity. -/

theorem sum_dist_eq_clusterTotal (data : List Point)
    (metric : Point → Point → ℚ)
    (hsym : ∀ x y, metric x y = metric y x)
    (hzero : ∀ x, metric x x = 0) :
    ∀ (c : List Nat) (m : Nat),
      (c.map (fun p => metric (pget data p) (pget data m))).sum =
        clusterTotal data c m metric := by
  intro c
  induction c with
  | nil => intro m; simp [clusterTotal]
  | cons p rest ih =>
    intro m
    by_cases hpm : p = m
    · subst hpm
      have hfil : (p :: rest).filter (fun q => q ≠ p) =
          rest.filter (fun q => q ≠ p) := by
        simp [List.filter_cons]
      simp only [clusterTotal, hfil, List.map_cons, List.sum_cons]
      rw [hzero (pget data p), zero_add]
      exact ih p
    · have hfil : (p :: rest).filter (fun q => q ≠ m) =
          p :: rest.filter (fun q => q ≠ m) := by
        simp [List.filter_cons, hpm]
      simp only [clusterTotal, hfil, List.map_cons, List.sum_cons]
      rw [hsym (pget data p) (pget data m)]
      exact congrArg (_ + ·) (ih m)

theorem sum_dist_median_le (data : List Point) (metric : Point → Point → ℚ)
    (hsym : ∀ x y, metric x y = metric y x)
    (hzero : ∀ x, metric x x = 0)
    (c : List Nat) (m0 m : Nat)
    (hmed : median data c metric = some m0) (hm : m ∈ c) :
    (c.map (fun p => metric (pget data p) (pget data m0))).sum ≤
      (c.map (fun p => metric (pget data p) (pget data m))).sum := by
  rw [sum_dist_eq_clusterTotal data metric hsym hzero c m0,
    sum_dist_eq_clusterTotal data metric hsym hzero c m]
  exact median_min data c metric m0 hmed m hm

theorem objective_median_le (data : List Point) (metric : Point → Point → ℚ)
    (hsym : ∀ x y, metric x y = metric y x)
    (hzero : ∀ x, metric x x = 0) :
    ∀ (Cs : List (List Nat)) (Is Is' : List Nat),
      Cs.length ≤ Is.length → Cs.length ≤ Is'.length →
      (∀ j, j < Cs.length →
        median data (Cs.getD j []) metric = some (Is'.getD j 0)) →
      (∀ j, j < Cs.length → Is.getD j 0 ∈ Cs.getD j []) →
      objective data metric Cs Is' ≤ objective data metric Cs Is := by
  intro Cs
  induction Cs with
  | nil => intro Is Is' _ _ _ _; simp [objective]
  | cons c cs ih =>
    intro Is Is' hl1 hl2 hmed hmem
    cases Is with
    | nil => simp at hl1
    | cons i is =>
      cases Is' with
      | nil => simp at hl2
      | cons i' is' =>
        simp only [objective, List.zip_cons_cons, List.map_cons, List.sum_cons]
        have hhead : (c.map (fun p => metric (pget data p) (pget data i'))).sum ≤
            (c.map (fun p => metric (pget data p) (pget data i))).sum := by
          refine sum_dist_median_le data metric hsym hzero c i' i ?_ ?_
          · simpa using hmed 0 (by simp)
          · simpa using hmem 0 (by simp)
        have htail := ih is is' (by simpa using hl1) (by simpa using hl2)
          (by intro j hj; simpa using hmed (j + 1) (by simpa using hj))
          (by intro j hj; simpa using hmem (j + 1) (by simpa using hj))
        simpa [objective] using add_le_add hhead htail

theorem objective_eq_flatten_sum (data : List Point)
    (metric : Point → Point → ℚ) :
    ∀ (Cs : List (List Nat)) (Is : List Nat), Cs.length = Is.length →
      Cs.flatten.Nodup →
      objective data metric Cs Is =
        (Cs.flatten.map (fun p =>
          metric (pget data p) (pget data (assignedMedoid Cs Is p)))).sum := by
  intro Cs
  induction Cs with
  | nil => intro Is _ _; simp [objective]
  | cons c cs ih =>
    intro Is hlen hnd
    cases Is with
    | nil => simp at hlen
    | cons i is =>
      have hnd' : (c ++ cs.flatten).Nodup := by simpa using hnd
      obtain ⟨hndc, hndcs, hdisj⟩ := List.nodup_append.mp hnd'
      simp only [objective, List.zip_cons_cons, List.map_cons, List.sum_cons,
        List.flatten_cons, List.map_append, List.sum_append]
      have hhead : (c.map (fun p =>
          metric (pget data p) (pget data (assignedMedoid (c :: cs) (i :: is) p)))).sum =
          (c.map (fun p => metric (pget data p) (pget data i))).sum := by
        refine congrArg List.sum (List.map_congr_left ?_)
        intro p hp
        have hfind : assignedMedoid (c :: cs) (i :: is) p = i := by
          unfold assignedMedoid
          rw [List.zip_cons_cons, List.find?_cons_of_pos _ (by simpa using hp)]
        rw [hfind]
      have htail : (cs.flatten.map (fun p =>
          metric (pget data p) (pget data (assignedMedoid (c :: cs) (i :: is) p)))).sum =
          (cs.flatten.map (fun p =>
            metric (pget data p) (pget data (assignedMedoid cs is p)))).sum := by
        refine congrArg List.sum (List.map_congr_left ?_)
        intro p hp
        have hpc : p ∉ c := fun hc => hdisj hc hp
        have hfind : assignedMedoid (c :: cs) (i :: is) p = assignedMedoid cs is p := by
          unfold assignedMedoid
          rw [List.zip_cons_cons, List.find?_cons_of_neg _ (by simpa using hpc)]
        rw [hfind]
      rw [hhead, htail]
      exact congrArg (fun x =>
        (List.map (fun p => metric (pget data p) (pget data i)) c).sum + x)
        (ih is (by simpa using hlen) hndcs)

theorem assignedMedoid_of_mem_getD :
    ∀ (Cs : List (List Nat)) (Is : List Nat) (p j : Nat),
      Cs.flatten.Nodup → j < Cs.length → p ∈ Cs.getD j [] →
      assignedMedoid Cs Is p = Is.getD j 0 := by
  intro Cs
  induction Cs with
  | nil => intro Is p j _ hj _; simp at hj
  | cons c cs ih =>
    intro Is p j hnd hj hp
    have hnd' : (c ++ cs.flatten).Nodup := by simpa using hnd
    obtain ⟨hndc, hndcs, hdisj⟩ := List.nodup_append.mp hnd'
    cases Is with
    | nil =>
      cases j with
      | zero =>
        unfold assignedMedoid
        simp
      | succ j' =>
        unfold assignedMedoid
        simp only [List.zip_nil_right, List.find?_nil]
        simp
    | cons i is =>
      cases j with
      | zero =>
        rw [List.getD_cons_zero] at hp
        unfold assignedMedoid
        rw [List.zip_cons_cons, List.find?_cons_of_pos _ (by simpa using hp)]
        simp
      | succ j' =>
        rw [List.getD_cons_succ] at hp
        have hpfl : p ∈ cs.flatten :=
          mem_flatten_of_getD cs j' p (by simpa using hj) hp
        have hpc : p ∉ c := fun hc => hdisj hc hpfl
        have h1 : assignedMedoid (c :: cs) (i :: is) p = assignedMedoid cs is p := by
          unfold assignedMedoid
          rw [List.zip_cons_cons, List.find?_cons_of_neg _ (by simpa using hpc)]
        rw [h1, List.getD_cons_succ]
        exact ih is p j' hndcs (by simpa using hj) hp

theorem assignedMedoid_exists :
    ∀ (Cs : List (List Nat)) (Is : List Nat) (p : Nat),
      Cs.length = Is.length → p ∈ Cs.flatten →
      ∃ j, j < Cs.length ∧ p ∈ Cs.getD j [] ∧
        assignedMedoid Cs Is p = Is.getD j 0 := by
  intro Cs
  induction Cs with
  | nil => intro Is p _ hp; simp at hp
  | cons c cs ih =>
    intro Is p hlen hp
    cases Is with
    | nil => simp at hlen
    | cons i is =>
      by_cases hpc : p ∈ c
      · refine ⟨0, by simp, by simpa using hpc, ?_⟩
        unfold assignedMedoid
        rw [List.zip_cons_cons, List.find?_cons_of_pos _ (by simpa using hpc)]
        simp
      · have hpfl : p ∈ cs.flatten := by
          have h2 : p ∈ c ++ cs.flatten := by simpa using hp
          rcases List.mem_append.mp h2 with h | h
          · exact absurd h hpc
          · exact h
        obtain ⟨j, hj, hmem, hassn⟩ := ih is p (by simpa using hlen) hpfl
        refine ⟨j + 1, by simpa using hj, by simpa using hmem, ?_⟩
        have h1 : assignedMedoid (c :: cs) (i :: is) p = assignedMedoid cs is p := by
          unfold assignedMedoid
          rw [List.zip_cons_cons, List.find?_cons_of_neg _ (by simpa using hpc)]
        rw [h1, List.getD_cons_succ]
        exact hassn

theorem flatten_nodup_getD_disjoint :
    ∀ (Cs : List (List Nat)), Cs.flatten.Nodup →
      ∀ i j, i < Cs.length → j < Cs.length → i ≠ j →
        ∀ x, x ∈ Cs.getD i [] → x ∈ Cs.getD j [] → False := by
  intro Cs
  induction Cs with
  | nil => intro _ i j hi _ _ _ _ _; simp at hi
  | cons c cs ih =>
    intro hnd i j hi hj hij x hxi hxj
    have hnd' : (c ++ cs.flatten).Nodup := by simpa using hnd
    obtain ⟨hndc, hndcs, hdisj⟩ := List.nodup_append.mp hnd'
    cases i with
    | zero =>
      cases j with
      | zero => exact hij rfl
      | succ j' =>
        rw [List.getD_cons_zero] at hxi
        rw [List.getD_cons_succ] at hxj
        exact hdisj hxi (mem_flatten_of_getD cs j' x (by simpa using hj) hxj)
    | succ i' =>
      cases j with
      | zero =>
        rw [List.getD_cons_zero] at hxj
        rw [List.getD_cons_succ] at hxi
        exact hdisj hxj (mem_flatten_of_getD cs i' x (by simpa using hi) hxi)
      | succ j' =>
        rw [List.getD_cons_succ] at hxi hxj
        exact ih hndcs i' j' (by simpa using hi) (by simpa using hj)
          (by omega) x hxi hxj

/-- C3 (amended): across one refinement iteration (and hence across all
successive iterations), the sum over clusters of the intra-cluster distances
from members to their cluster's medoid does not increase, provided the
configured metric is symmetric with zero self-distance (as every built-in
metric family is; the counterexample above shows the restriction is needed):
starting from any partition `C` of the dataset with its selected medoids
`(M, I)`, reassigning all points to their nearest medoids and re-selecting
each cluster's medoid yields an objective no larger than the objective of
`(C, I)`. -/
theorem kmedoids_objective_monotone
    (data : List Point) (metric : Point → Point → ℚ)
    (hsym : ∀ x y, metric x y = metric y x)
    (hzero : ∀ x, metric x x = 0)
    (C : List (List Nat)) (M : List Point) (I : List Nat)
    (hpart : C.flatten.Perm (List.range data.length))
    (hne : C ≠ [])
    (hmed : update_medoids data C metric = some (M, I))
    (M2 : List Point) (I2 : List Nat)
    (hmed2 : update_medoids data (update_clusters data I M metric) metric =
      some (M2, I2)) :
    objective data metric (update_clusters data I M metric) I2 ≤
      objective data metric C I := by
  obtain ⟨hM, hIlen, hmedian⟩ := update_medoids_char data metric C M I hmed
  have hCnd : C.flatten.Nodup :=
    (List.Perm.nodup_iff hpart).mpr (List.nodup_range data.length)
  have hImem : ∀ j, j < C.length → I.getD j 0 ∈ C.getD j [] := by
    intro j hj
    exact median_mem data _ metric _ (hmedian j hj)
  have hInd : I.Nodup :=
    nodup_of_positional_mem I C hIlen hCnd (fun j hj => hImem j (by omega))
  have hIsub : ∀ q ∈ I, q < data.length := by
    intro q hq
    obtain ⟨j, hj, hg⟩ := mem_getD_of_mem I 0 q hq
    have hqin : q ∈ C.flatten := by
      refine mem_flatten_of_getD C j q (by omega) ?_
      rw [← hg]
      exact hImem j (by omega)
    exact List.mem_range.mp ((List.Perm.mem_iff hpart).mp hqin)
  have hIne : I ≠ [] := by
    intro hnil
    have h0 : (0 : Nat) < C.length := List.length_pos.mpr hne
    rw [hnil] at hIlen
    simp at hIlen
    omega
  have hMlen : M.length = I.length := by rw [hM, List.length_map]
  have hMne : M ≠ [] := by
    intro hnil
    rw [hnil] at hMlen
    exact hIne (List.eq_nil_of_length_eq_zero hMlen.symm)
  have hC'len : (update_clusters data I M metric).length = I.length :=
    length_update_clusters data I M metric
  have hC'flat : (update_clusters data I M metric).flatten.Perm
      (List.range data.length) :=
    update_clusters_flatten_perm data I M metric hMne hMlen hInd hIsub
  have hC'nd : (update_clusters data I M metric).flatten.Nodup :=
    (List.Perm.nodup_iff hC'flat).mpr (List.nodup_range data.length)
  obtain ⟨hM2, hI2len, hmedian2⟩ := update_medoids_char data metric _ M2 I2 hmed2
  have ha : objective data metric (update_clusters data I M metric) I2 ≤
      objective data metric (update_clusters data I M metric) I := by
    refine objective_median_le data metric hsym hzero _ I I2
      (le_of_eq (by omega)) (le_of_eq (by omega)) hmedian2 ?_
    intro j hj
    rw [update_clusters_getD data I M metric j hMne hMlen (by omega)]
    exact List.mem_cons_self _ _
  have hb1 := objective_eq_flatten_sum data metric
    (update_clusters data I M metric) I hC'len hC'nd
  have hb2 := objective_eq_flatten_sum data metric C I hIlen.symm hCnd
  have hpw : ∀ p ∈ (update_clusters data I M metric).flatten,
      metric (pget data p)
        (pget data (assignedMedoid (update_clusters data I M metric) I p)) ≤
      metric (pget data p) (pget data (assignedMedoid C I p)) := by
    intro p hp
    have hpN : p < data.length :=
      List.mem_range.mp ((List.Perm.mem_iff hC'flat).mp hp)
    obtain ⟨i0, hi0, hpmem0, hassn0⟩ := assignedMedoid_exists C I p hIlen.symm
      ((List.Perm.mem_iff hpart).mpr (List.mem_range.mpr hpN))
    by_cases hpI : p ∈ I
    · obtain ⟨jI, hjI, hgI⟩ := mem_getD_of_mem I 0 p hpI
      have hseed : p ∈ (update_clusters data I M metric).getD jI [] := by
        rw [update_clusters_getD data I M metric jI hMne hMlen hjI, ← hgI]
        exact List.mem_cons_self _ _
      have hassnL : assignedMedoid (update_clusters data I M metric) I p =
          I.getD jI 0 :=
        assignedMedoid_of_mem_getD _ I p jI hC'nd (by omega) hseed
      have hpCj : p ∈ C.getD jI [] := by
        rw [← hgI]
        exact hImem jI (by omega)
      have hi0j : i0 = jI := by
        by_contra hne2
        exact flatten_nodup_getD_disjoint C hCnd i0 jI hi0 (by omega) hne2
          p hpmem0 hpCj
      rw [hassnL, hassn0, hi0j, hgI]
    · obtain ⟨j, hjlt, hmemj, hminj, _, _⟩ :=
        update_clusters_assign data I M metric p hIne hMlen hpN hpI
      have hassnL : assignedMedoid (update_clusters data I M metric) I p =
          I.getD j 0 :=
        assignedMedoid_of_mem_getD _ I p j hC'nd (by omega) hmemj
      rw [hassnL, hassn0]
      have h1 := hminj i0 (by omega)
      have hMj : pget M j = pget data (I.getD j 0) := by
        rw [hM]
        exact getD_map_lt (pget data) I j [] 0 (by omega)
      have hMi0 : pget M i0 = pget data (I.getD i0 0) := by
        rw [hM]
        exact getD_map_lt (pget data) I i0 [] 0 (by omega)
      rwa [hMj, hMi0] at h1
  have hsum : ((update_clusters data I M metric).flatten.map (fun p =>
      metric (pget data p)
        (pget data (assignedMedoid (update_clusters data I M metric) I p)))).sum ≤
      ((update_clusters data I M metric).flatten.map (fun p =>
        metric (pget data p) (pget data (assignedMedoid C I p)))).sum :=
    List.sum_le_sum hpw
  have hperm : (update_clusters data I M metric).flatten.Perm C.flatten :=
    hC'flat.trans hpart.symm
  have hgsum : ((update_clusters data I M metric).flatten.map (fun p =>
      metric (pget data p) (pget data (assignedMedoid C I p)))).sum =
      (C.flatten.map (fun p =>
        metric (pget data p) (pget data (assignedMedoid C I p)))).sum :=
    List.Perm.sum_eq (List.Perm.map _ hperm)
  calc objective data metric (update_clusters data I M metric) I2 ≤
      objective data metric (update_clusters data I M metric) I := ha
    _ = _ := hb1
    _ ≤ _ := hsum
    _ = _ := hgsum
    _ = objective data metric C I := hb2.symm

/-! Concrete witnesses. -/

theorem kmedoids_convergence_criterion_witness :
    ∃ (newMedoids : List Point) (newIndexes : List Nat) (disp : ℚ),
      update_medoids [[0], [1], [10]]
          (update_clusters [[0], [1], [10]] [0, 2] [[0], [10]] euclidSqDist)
          euclidSqDist = some (newMedoids, newIndexes) ∧
      max_displacement [[0], [10]] newMedoids = some disp ∧
      (∀ j, j < newMedoids.length →
        euclidSqDist (pget [[0], [10]] j) (pget newMedoids j) ≤ disp) ∧
      (∃ j, j < newMedoids.length ∧
        disp = euclidSqDist (pget [[0], [10]] j) (pget newMedoids j)) ∧
      (disp ≤ (0 : ℚ) * 0 →
        process_loop [[0], [1], [10]] 0 euclidSqDist (0 + 1) [[0], [10]] [0, 2] =
          some { clusters :=
                   update_clusters [[0], [1], [10]] [0, 2] [[0], [10]] euclidSqDist,
                 medoids := newMedoids, medoid_indexes := newIndexes }) ∧
      ((0 : ℚ) * 0 < disp →
        process_loop [[0], [1], [10]] 0 euclidSqDist (0 + 1) [[0], [10]] [0, 2] =
          process_loop [[0], [1], [10]] 0 euclidSqDist 0 newMedoids newIndexes) :=
  kmedoids_convergence_criterion [[0], [1], [10]] 0 euclidSqDist 0
    [[0], [10]] [0, 2] (by decide) (by decide)

theorem kmedoids_partition_invariant_witness :
    ((update_clusters [[0], [1], [10]] [0, 2] [[0], [10]] euclidSqDist).length =
        [0, 2].length ∧
     (∀ j, j < [0, 2].length → List.getD [0, 2] j 0 ∈
        (update_clusters [[0], [1], [10]] [0, 2] [[0], [10]] euclidSqDist).getD j []) ∧
     (update_clusters [[0], [1], [10]] [0, 2] [[0], [10]] euclidSqDist).flatten.Perm
        (List.range 3) ∧
     (update_clusters [[0], [1], [10]] [0, 2] [[0], [10]] euclidSqDist).Pairwise
        List.Disjoint) ∧
    (∀ r, pyProcess [[0], [1], [10]] [0, 2] 0 euclidSqDist 1 = some r →
       r.clusters.length = [0, 2].length ∧
       r.medoid_indexes.length = [0, 2].length ∧
       r.clusters.flatten.Perm (List.range 3) ∧
       r.clusters.Pairwise List.Disjoint ∧
       (∀ j, j < [0, 2].length →
         r.medoid_indexes.getD j 0 ∈ r.clusters.getD j [])) :=
  kmedoids_partition_invariant [[0], [1], [10]] [0, 2] [[0], [10]]
    euclidSqDist 0 1 (by decide) (by decide) (by decide) (by decide)

theorem kmedoids_objective_monotone_witness :
    objective [[0], [1], [5]] euclidSqDist
        (update_clusters [[0], [1], [5]] [0, 2] [[0], [5]] euclidSqDist) [0, 2] ≤
      objective [[0], [1], [5]] euclidSqDist [[0, 1], [2]] [0, 2] :=
  kmedoids_objective_monotone [[0], [1], [5]] euclidSqDist
    euclidSqDist_comm euclidSqDist_self
    [[0, 1], [2]] [[0], [5]] [0, 2]
    (List.Perm.refl _) (by decide) (by with_unfolding_all rfl)
    [[0], [5]] [0, 2] (by with_unfolding_all rfl)

theorem kmedoids_assignment_tiebreak_witness :
    ∃ j, j < [0, 2].length ∧
      (1 : Nat) ∈ (update_clusters [[0], [1], [10]] [0, 2] [[0], [10]]
        euclidSqDist).getD j [] ∧
      (∀ i, i < [0, 2].length →
        euclidSqDist (pget [[0], [1], [10]] 1) (pget [[0], [10]] j) ≤
          euclidSqDist (pget [[0], [1], [10]] 1) (pget [[0], [10]] i)) ∧
      (∀ i, i < j →
        euclidSqDist (pget [[0], [1], [10]] 1) (pget [[0], [10]] j) <
          euclidSqDist (pget [[0], [1], [10]] 1) (pget [[0], [10]] i)) ∧
      (∀ i, i < [0, 2].length → i ≠ j →
        (1 : Nat) ∉ (update_clusters [[0], [1], [10]] [0, 2] [[0], [10]]
          euclidSqDist).getD i []) :=
  kmedoids_assignment_tiebreak [[0], [1], [10]] [0, 2] [[0], [10]]
    euclidSqDist 1 (by decide) (by decide) (by decide) (by decide)

theorem kmedoids_medoid_membership_witness :
    List.length [0, 2] = List.length [[0, 1], [2]] ∧
    ∀ j, j < List.length [0, 2] →
      List.getD [0, 2] j 0 ∈ List.getD [[0, 1], [2]] j [] :=
  (kmedoids_medoid_membership [[0], [1], [10]] euclidSqDist).1
    [[0, 1], [2]] [[0], [10]] [0, 2] (by with_unfolding_all rfl)

theorem kmedoids_init_validation_witness :
    ((∃ e, kmedoids_init [[0], [1], [2]] [1, 1] (1/4) true none true =
        Except.error e) ↔
      ∃ i ∈ [(1 : Int), 1], ¬ ((-3 : Int) ≤ i ∧ i < (3 : Int))) ∧
    (∀ e, kmedoids_init [[0], [1], [2]] [1, 1] (1/4) true none true =
        Except.error e → e = PyErr.indexError) :=
  kmedoids_init_validation [[0], [1], [2]] [1, 1] (1/4) true none true

theorem kmedoids_ccore_selection_witness :
    ((kmedoidsState.mk [[0]] [] [[0]] [0] 1 euclideanSquareMetric true).ccore =
        true ↔
      (true = true ∧
        (kmedoidsState.mk [[0]] [] [[0]] [0] 1 euclideanSquareMetric
          true).metric.mtype ≠ type_metric.USER_DEFINED ∧ true = true)) ∧
    (((kmedoidsState.mk [[0]] [] [[0]] [0] 1 euclideanSquareMetric
          true).metric.mtype = type_metric.USER_DEFINED ∨ true = false) →
      processPath (kmedoidsState.mk [[0]] [] [[0]] [0] 1 euclideanSquareMetric
        true) = ProcessPath.pythonPath) :=
  kmedoids_ccore_selection [[0]] [0] 1 true none true
    (kmedoidsState.mk [[0]] [] [[0]] [0] 1 euclideanSquareMetric true) rfl

theorem kmedoids_deterministic_witness :
    RunResult.mk [[0, 1], [2]] [[0], [10]] [0, 2] =
      RunResult.mk [[0, 1], [2]] [[0], [10]] [0, 2] :=
  kmedoids_deterministic [[0], [1], [10]] [0, 2] 0 euclidSqDist 1 2
    (RunResult.mk [[0, 1], [2]] [[0], [10]] [0, 2])
    (RunResult.mk [[0, 1], [2]] [[0], [10]] [0, 2])
    (by with_unfolding_all rfl) (by with_unfolding_all rfl)

theorem kmedoids_default_metric_witness :
    (kmedoidsState.mk [[0], [1]] [] [[1]] [1] (1/4) euclideanSquareMetric
        false).metric = euclideanSquareMetric ∧
    (kmedoidsState.mk [[0], [1]] [] [[1]] [1] (1/4) euclideanSquareMetric
        false).metric.mtype = type_metric.EUCLIDEAN_SQUARE ∧
    (kmedoidsState.mk [[0], [1]] [] [[1]] [1] (1/4) euclideanSquareMetric
        false).metric.dist = euclidSqDist :=
  kmedoids_default_metric [[0], [1]] [1] (1/4) false true
    (kmedoidsState.mk [[0], [1]] [] [[1]] [1] (1/4) euclideanSquareMetric
      false) rfl

theorem kmedoids_assignment_total_witness :
    (∀ dists : List ℚ, dists ≠ [] →
       ∃ j : Nat, nearestIndexC (fun _ _ => false) (fun _ => false) dists =
          (j : Int) ∧ j < dists.length) ∧
    (update_clustersC (fun _ _ => false) (fun _ => false) [[0], [1], [10]]
        [0, 2] [[0], [10]] euclidSqDist).length = [0, 2].length ∧
    (update_clustersC (fun _ _ => false) (fun _ => false) [[0], [1], [10]]
        [0, 2] [[0], [10]] euclidSqDist).flatten.Perm
      ([0, 2] ++ (List.range 3).filter (fun p => decide (p ∉ [0, 2]))) :=
  kmedoids_assignment_total (fun _ _ => false) (fun _ => false)
    [[0], [1], [10]] [0, 2] [[0], [10]] euclidSqDist (by decide) (by decide)

/-- C3 counterexample: under the configured metric `asymDist` — an admissible
user-defined distance callable (non-negative, zero self-distance, but
asymmetric) — a run of the refinement loop on the dataset `[[0],[1],[2]]`
starting from medoid indexes `[0, 2]` reaches, after three iterations, the
partition `[[2],[1,0]]` with medoid indexes `[2, 0]` and objective `1`, and
the very next assignment/re-selection iteration produces the partition
`[[2,1],[0]]` with medoid indexes `[1, 0]` and objective `4`: the sum of
intra-cluster distances to the medoids increases across successive
iterations, refuting the claim as stated. -/
theorem kmedoids_objective_not_monotone :
    update_clusters [[0], [1], [2]] [0, 2] [[0], [2]] asymDist = [[0], [2, 1]] ∧
    update_medoids [[0], [1], [2]] [[0], [2, 1]] asymDist =
      some ([[0], [1]], [0, 1]) ∧
    update_clusters [[0], [1], [2]] [0, 1] [[0], [1]] asymDist = [[0, 2], [1]] ∧
    update_medoids [[0], [1], [2]] [[0, 2], [1]] asymDist =
      some ([[2], [1]], [2, 1]) ∧
    update_clusters [[0], [1], [2]] [2, 1] [[2], [1]] asymDist = [[2], [1, 0]] ∧
    update_medoids [[0], [1], [2]] [[2], [1, 0]] asymDist =
      some ([[2], [0]], [2, 0]) ∧
    update_clusters [[0], [1], [2]] [2, 0] [[2], [0]] asymDist = [[2, 1], [0]] ∧
    update_medoids [[0], [1], [2]] [[2, 1], [0]] asymDist =
      some ([[1], [0]], [1, 0]) ∧
    objective [[0], [1], [2]] asymDist [[2], [1, 0]] [2, 0] = 1 ∧
    objective [[0], [1], [2]] asymDist [[2, 1], [0]] [1, 0] = 4 ∧
    ¬ (objective [[0], [1], [2]] asymDist [[2, 1], [0]] [1, 0] ≤
        objective [[0], [1], [2]] asymDist [[2], [1, 0]] [2, 0]) := by
  with_unfolding_all decide
